import Mathlib

/-!
# Game of Life: sparse cell population engine

A shallow embedding of `GameOfLife.cpp`.  Values of `int64_t` are integers,
reduced with `wrap64` wherever the source does arithmetic on them.  The
container `std::map<int64_t, std::vector<int64_t>>` is a list of
(key, row) entries; the operations below keep such a list ordered by key when
it is ordered to begin with, and none of the results need the order as a
hypothesis unless they say so.
-/

namespace GameOfLife

/-! ## Constants and machine integers -/

/-- The constant `MAX_VALUE`, the largest `int64_t`. -/
def MAX_VALUE : Int := 9223372036854775807

/-- The constant `MIN_VALUE`, the smallest `int64_t`. -/
def MIN_VALUE : Int := -9223372036854775808

/-- Reduction of an integer to the two's complement `int64_t` range. -/
def wrap64 (n : Int) : Int :=
  (n + 9223372036854775808) % 18446744073709551616 - 9223372036854775808

/-- The value is representable as an `int64_t`. -/
def InRange (n : Int) : Prop := MIN_VALUE ≤ n ∧ n ≤ MAX_VALUE

instance (n : Int) : Decidable (InRange n) :=
  inferInstanceAs (Decidable (MIN_VALUE ≤ n ∧ n ≤ MAX_VALUE))

/-! ## The row map `LifeGrid_t` -/

/-- The type `LifeGrid_t`: entries (y, columns of row y), ascending in y. -/
abbrev LifeGrid_t := List (Int × List Int)

/-- The lookup `std::map::find`: the row stored under `key`, if there is one. -/
def mapFind : LifeGrid_t → Int → Option (List Int)
  | [], _ => none
  | (k, v) :: rest, key => if k = key then some v else mapFind rest key

/-- Insertion of an empty row under `key` at its place in key order. -/
def mapInsertEmpty : LifeGrid_t → Int → LifeGrid_t
  | [], key => [(key, [])]
  | (k, v) :: rest, key =>
    if key < k then (key, []) :: (k, v) :: rest else (k, v) :: mapInsertEmpty rest key

/-- The map after `operator[]`: an absent key gets a default (empty) row. -/
def mapIndex (g : LifeGrid_t) (key : Int) : LifeGrid_t :=
  match mapFind g key with
  | some _ => g
  | none => mapInsertEmpty g key

/-- The row a reference obtained for `key` denotes. -/
def mapAt (g : LifeGrid_t) (key : Int) : List Int :=
  (mapFind g key).getD []

/-- A write of `row` through the reference obtained for `key`. -/
def mapAssign : LifeGrid_t → Int → List Int → LifeGrid_t
  | [], _, _ => []
  | (k, v) :: rest, key, row =>
    if k = key then (k, row) :: rest else (k, v) :: mapAssign rest key row

/-! ## Cells and neighbours -/

/-- The class `LifeCell`: a coordinate pair. -/
structure LifeCell where
  x : Int
  y : Int
deriving DecidableEq

/-- The function `LifeCell::GetListOfNeighbors`: the eight neighbours are
pushed onto the end of `neighborCells`. -/
def LifeCell.GetListOfNeighbors (xCoordinate yCoordinate : Int)
    (neighborCells : List LifeCell) : List LifeCell :=
  let previousX := wrap64 (xCoordinate - 1)
  let previousX := if xCoordinate = MIN_VALUE then MAX_VALUE else previousX
  let previousY := wrap64 (yCoordinate - 1)
  let previousY := if yCoordinate = MIN_VALUE then MAX_VALUE else previousY
  let nextX := wrap64 (xCoordinate + 1)
  let nextX := if xCoordinate = MAX_VALUE then MIN_VALUE else nextX
  let nextY := wrap64 (yCoordinate + 1)
  let nextY := if yCoordinate = MAX_VALUE then MIN_VALUE else nextY
  neighborCells ++
    [ LifeCell.mk previousX nextY, LifeCell.mk previousX yCoordinate,
      LifeCell.mk previousX previousY,
      LifeCell.mk xCoordinate nextY, LifeCell.mk xCoordinate previousY,
      LifeCell.mk nextX nextY, LifeCell.mk nextX yCoordinate,
      LifeCell.mk nextX previousY ]

/-! ## The population -/

/-- The two buffers a role pointer can point at. -/
inductive BufferId where
  | A
  | B
deriving DecidableEq

/-- The class `CellPopulation`: two buffers, the two role pointers and the
list of potentially changed cells. -/
structure CellPopulation where
  m_AliveCellsA : LifeGrid_t
  m_AliveCellsB : LifeGrid_t
  m_pCurrentlyAliveCells : BufferId
  m_pPreviouslyAliveCells : BufferId
  m_PotentiallyChangedCells : List LifeCell
deriving DecidableEq

namespace CellPopulation

/-- The constructor: both buffers empty, A current and B previous. -/
def new : CellPopulation :=
  { m_AliveCellsA := []
    m_AliveCellsB := []
    m_pCurrentlyAliveCells := BufferId.A
    m_pPreviouslyAliveCells := BufferId.B
    m_PotentiallyChangedCells := [] }

/-- Dereference of a role pointer. -/
def load (s : CellPopulation) (p : BufferId) : LifeGrid_t :=
  match p with
  | BufferId.A => s.m_AliveCellsA
  | BufferId.B => s.m_AliveCellsB

/-- Write through a role pointer. -/
def store (s : CellPopulation) (p : BufferId) (g : LifeGrid_t) : CellPopulation :=
  match p with
  | BufferId.A => { s with m_AliveCellsA := g }
  | BufferId.B => { s with m_AliveCellsB := g }

/-- The buffer `*m_pCurrentlyAliveCells`. -/
def current (s : CellPopulation) : LifeGrid_t := s.load s.m_pCurrentlyAliveCells

/-- The buffer `*m_pPreviouslyAliveCells`. -/
def previous (s : CellPopulation) : LifeGrid_t := s.load s.m_pPreviouslyAliveCells

/-- The method `AddPotentiallyChangedCell`. -/
def AddPotentiallyChangedCell (s : CellPopulation) (xCoordinate yCoordinate : Int) :
    CellPopulation :=
  { s with m_PotentiallyChangedCells :=
      s.m_PotentiallyChangedCells ++ [LifeCell.mk xCoordinate yCoordinate] }

/-- The method `AddAliveCell`. -/
def AddAliveCell (s : CellPopulation) (xCoordinate yCoordinate : Int) : CellPopulation :=
  let s1 := s.store s.m_pCurrentlyAliveCells (mapIndex s.current yCoordinate)
  let curentlyAliveCellsAtYCoordinate := mapAt s1.current yCoordinate
  if xCoordinate ∈ curentlyAliveCellsAtYCoordinate then s1
  else
    let s2 := s1.store s1.m_pCurrentlyAliveCells
      (mapAssign s1.current yCoordinate (curentlyAliveCellsAtYCoordinate ++ [xCoordinate]))
    let s3 := s2.AddPotentiallyChangedCell xCoordinate yCoordinate
    let neighborCells := LifeCell.GetListOfNeighbors xCoordinate yCoordinate []
    neighborCells.foldl (fun st i => st.AddPotentiallyChangedCell i.x i.y) s3

/-- The method `WasCellPreviouslyAlive`. -/
def WasCellPreviouslyAlive (s : CellPopulation) (xCoordinate yCoordinate : Int) : Bool :=
  match mapFind s.previous yCoordinate with
  | none => false
  | some vectorAtXCoordinate => decide (xCoordinate ∈ vectorAtXCoordinate)

/-- The method `GetPreviouslyAliveNeighborCount`. -/
def GetPreviouslyAliveNeighborCount (s : CellPopulation) (xCoordinate yCoordinate : Int) :
    Nat :=
  let neighborCells := LifeCell.GetListOfNeighbors xCoordinate yCoordinate []
  neighborCells.foldl
    (fun aliveNeighborCount i =>
      if s.WasCellPreviouslyAlive i.x i.y then aliveNeighborCount + 1 else aliveNeighborCount)
    0

/-- The method `SwapAliveCells`. -/
def SwapAliveCells (s : CellPopulation) : CellPopulation :=
  if s.m_pCurrentlyAliveCells = BufferId.A then
    { s with m_pCurrentlyAliveCells := BufferId.B, m_pPreviouslyAliveCells := BufferId.A }
  else
    { s with m_pCurrentlyAliveCells := BufferId.A, m_pPreviouslyAliveCells := BufferId.B }

/-- The test in the loop of `Iterate` that decides whether a cell is pushed
onto `cellsToBeAlive`. -/
def shouldBeAlive (s : CellPopulation) (nextCell : LifeCell) : Bool :=
  let wasCellPreviouslyAlive := s.WasCellPreviouslyAlive nextCell.x nextCell.y
  let aliveNeighborCount := s.GetPreviouslyAliveNeighborCount nextCell.x nextCell.y
  (wasCellPreviouslyAlive && aliveNeighborCount == 2)
    || (wasCellPreviouslyAlive && aliveNeighborCount == 3)
    || (!wasCellPreviouslyAlive && aliveNeighborCount == 3)

/-- The method `Iterate`. -/
def Iterate (s : CellPopulation) : CellPopulation :=
  let s1 := s.SwapAliveCells
  let s2 := s1.store s1.m_pCurrentlyAliveCells []
  let cellsToBeAlive := s2.m_PotentiallyChangedCells.foldl
    (fun cells nextCell => if s2.shouldBeAlive nextCell then cells ++ [nextCell] else cells) []
  let s3 := { s2 with m_PotentiallyChangedCells := [] }
  cellsToBeAlive.foldl (fun st nextCellToBeAlive =>
    st.AddAliveCell nextCellToBeAlive.x nextCellToBeAlive.y) s3

end CellPopulation

/-! ## Listing the current buffer -/

namespace CellPopulation

/-- The method `ClearTheScreen`: the escape sequence it writes. -/
def clearTheScreenText : String := "\x1b[2J\x1b[1;1H"

/-- The pairs (j, yValue) that the loop nest of `PrintAllCurrentlyAliveCells`
visits, in order: rows as the map iterates them, and for each row key the
columns of `at(key)` in stored order. -/
def printedCells (s : CellPopulation) : List LifeCell :=
  s.current.flatMap (fun i => (mapAt s.current i.1).map (fun j => LifeCell.mk j i.1))

/-- The method `PrintAllCurrentlyAliveCells`: the pieces written to
`std::cout`, in order (`std::endl` is a line feed). -/
def PrintAllCurrentlyAliveCells (s : CellPopulation) (bLife106Format : Bool) : List String :=
  let out0 : List String :=
    if bLife106Format then [clearTheScreenText, "#Life 1.06", "\n"] else []
  let r := s.current.foldl
    (fun (acc : Bool × List String) i =>
      let yValue := i.1
      (mapAt s.current i.1).foldl
        (fun (acc : Bool × List String) j =>
          let out := acc.2
          let out := if !bLife106Format then out ++ ["("] else out
          let out := out ++ [toString j]
          let out := if !bLife106Format then out ++ [","] else out
          let out := out ++ [" ", toString yValue]
          let out := if bLife106Format then out ++ ["\n"] else out ++ [") "]
          (false, out))
        acc)
    (true, out0)
  let out := r.2 ++ ["\n"]
  if r.1 && !bLife106Format then out ++ ["All cells are dead.", "\n"] else out

end CellPopulation

/-! ## Seeding from text

The class `GameOfLife` holds one `CellPopulation`; its methods are functions
of that population.  A `std::string` is a list of characters, the lines that
`std::getline` delivers are a list of strings, and the messages written to
`std::cout` are left out. -/

/-- The test `isspace` of the C locale, which `strtoll` uses to skip leading
white space. -/
def isSpaceChar (c : Char) : Bool :=
  c = ' ' || c = '\t' || c = '\n' || c = '\x0b' || c = '\x0c' || c = '\r'

/-- The library function `std::stoll` (base 10), as the C++ standard
describes it: leading white space is skipped, an optional sign and then the
longest run of decimal digits are read, and whatever follows is ignored; no
digits (`invalid_argument`) or a value outside `long long` (`out_of_range`)
throws, which is `none` here. -/
def stoll (str : List Char) : Option Int :=
  let rest := str.dropWhile isSpaceChar
  let signed : Bool × List Char :=
    match rest with
    | '-' :: r => (true, r)
    | '+' :: r => (false, r)
    | r => (false, r)
  let digits := signed.2.takeWhile Char.isDigit
  if digits = [] then none
  else
    let magnitude : Nat := digits.foldl (fun acc d => acc * 10 + (d.toNat - 48)) 0
    let value : Int := if signed.1 then -(magnitude : Int) else (magnitude : Int)
    if value > MAX_VALUE ∨ value < MIN_VALUE then none else some value

/-- The member `std::string::find` for a single character, from position
`pos`: the index of the first occurrence, or `none` for `npos`. -/
def strFind (str : List Char) (c : Char) (pos : Nat) : Option Nat :=
  let i := (str.drop pos).indexOf c
  if i < (str.drop pos).length then some (pos + i) else none

/-- The part of `AddAliveCellFromString` before the call of `AddAliveCell`:
the coordinates read from the line, or `none` where the method returns
false. -/
def parseSeedLine (newString : List Char) : Option (Int × Int) :=
  match strFind newString ' ' 0 with
  | none => none
  | some separator =>
    if (strFind newString ' ' (separator + 1)).isSome then none
    else
      let firstValue := newString.take separator
      let secondValue := newString.drop separator
      match stoll firstValue with
      | none => none
      | some newXValue =>
        match stoll secondValue with
        | none => none
        | some newYValue =>
          if newXValue > MAX_VALUE ∨ newXValue < MIN_VALUE then none
          else if newYValue > MAX_VALUE ∨ newYValue < MIN_VALUE then none
          else some (newXValue, newYValue)

/-- The method `GameOfLife::AddAliveCellFromString`: the value returned and
the population afterwards. -/
def AddAliveCellFromString (s : CellPopulation) (newString : List Char) :
    Bool × CellPopulation :=
  match parseSeedLine newString with
  | none => (false, s)
  | some (newXValue, newYValue) => (true, s.AddAliveCell newXValue newYValue)

/-- The method `GameOfLife::ProcessStartState` on the lines that remain on
`std::cin`: the value returned and the population afterwards. -/
def ProcessStartState (s : CellPopulation) : List (List Char) → Bool × CellPopulation
  | [] => (true, s)
  | nextInputLine :: rest =>
    if nextInputLine.isEmpty then (true, s)
    else
      let r := AddAliveCellFromString s nextInputLine
      if !r.1 then (false, r.2) else ProcessStartState r.2 rest

/-! ## Drawing the window

What the drawing methods write to `std::cout` is the list of the pieces
written, in order; a character is written as a string of length one and
`std::endl` as a line feed. -/

/-- The constant `MAX_DRAW_VALUE`. -/
def MAX_DRAW_VALUE : Int := 25

/-- The constant `MIN_DRAW_VALUE`. -/
def MIN_DRAW_VALUE : Int := -MAX_DRAW_VALUE

namespace CellPopulation

/-- The method `DrawHeader`. -/
def DrawHeader : List String :=
  [clearTheScreenText] ++ List.replicate (-MIN_DRAW_VALUE).toNat "  "
    ++ [" ", toString MAX_DRAW_VALUE, "\n"]

/-- The method `DrawEmptyXAxis`. -/
def DrawEmptyXAxis : List String :=
  List.replicate (MAX_DRAW_VALUE - MIN_DRAW_VALUE + 1).toNat "--"
    ++ [" ", toString MAX_DRAW_VALUE, "\n"]

/-- The loop of `DrawEmptyRows`: one blank row with the axis bar for each unit
by which `numberOfEmptyRows` exceeds 1. -/
def drawEmptyRowsLoop (lastDrawnYValue nextDrawnYValue : Int) : List String :=
  let numberOfEmptyRows := lastDrawnYValue - nextDrawnYValue
  (List.replicate (numberOfEmptyRows - 1).toNat
    (List.replicate (-MIN_DRAW_VALUE).toNat "  " ++ [" |", "\n"])).flatten

/-- The method `DrawEmptyRows`.  Its two recursive calls have 0 as one bound,
so they run the loop only. -/
def DrawEmptyRows (lastDrawnYValue nextDrawnYValue : Int) : List String :=
  if lastDrawnYValue > 0 ∧ nextDrawnYValue < 0 then
    drawEmptyRowsLoop lastDrawnYValue 0 ++ DrawEmptyXAxis ++ drawEmptyRowsLoop 0 nextDrawnYValue
  else drawEmptyRowsLoop lastDrawnYValue nextDrawnYValue

/-- A loop `while (lastDrawnX < bound)` that writes two empty characters and
increments `lastDrawnX`: what it writes and the value it leaves. -/
def drawGap (emptyChar : Char) (lastDrawnX bound : Int) : List String × Int :=
  ((List.replicate (bound - lastDrawnX).toNat
      [String.singleton emptyChar, String.singleton emptyChar]).flatten,
    if lastDrawnX < bound then bound else lastDrawnX)

/-- The body of the loop over the alive columns in `DrawNonEmptyRow`: what has
been written and `lastDrawnX`, after the column `x`. -/
def drawCell (emptyChar : Char) (acc : List String × Int) (x : Int) : List String × Int :=
  let lastDrawnX := acc.2
  if x ≤ 0 ∨ lastDrawnX ≥ 0 then
    let g := drawGap emptyChar lastDrawnX (wrap64 (x - 1))
    (acc.1 ++ g.1 ++ [String.singleton emptyChar, "*"], g.2 + 1)
  else
    let g1 := drawGap emptyChar lastDrawnX (-1)
    let g2 := drawGap emptyChar (g1.2 + 1) (wrap64 (x - 1))
    (acc.1 ++ g1.1 ++ [" |"] ++ g2.1 ++ [String.singleton emptyChar, "*"], g2.2 + 1)

/-- The method `DrawNonEmptyRow`; `std::sort` is the ascending insertion sort. -/
def DrawNonEmptyRow (s : CellPopulation) (yValue : Int) : List String :=
  let emptyChar : Char := if yValue = 0 then '-' else ' '
  let aliveCellXCoordinates := (mapAt s.current yValue).insertionSort (fun a b => a ≤ b)
  let r := aliveCellXCoordinates.foldl (drawCell emptyChar) ([], MIN_DRAW_VALUE - 1)
  let g := drawGap emptyChar r.2 (-1)
  let out := r.1 ++ g.1
  let lastDrawnX := g.2
  let r2 : List String × Int :=
    if lastDrawnX = -1 then (out ++ [String.singleton emptyChar, "|"], lastDrawnX + 1)
    else (out, lastDrawnX)
  let out :=
    if yValue = 0 then
      let deltaToLastX := MAX_DRAW_VALUE - r2.2
      r2.1 ++ (List.replicate deltaToLastX.toNat
          [String.singleton emptyChar, String.singleton emptyChar]).flatten
        ++ [" ", toString MAX_DRAW_VALUE]
    else r2.1
  out ++ ["\n"]

/-- The loop of `DrawAllCurrentlyAliveCells` over the rows from the highest
key down, followed by the final call of `DrawEmptyRows`: a row above the
window is skipped, a row below it ends the loop. -/
def drawRows (s : CellPopulation) : List (Int × List Int) → Int → List String
  | [], lastDrawnYValue => DrawEmptyRows lastDrawnYValue (MIN_DRAW_VALUE - 1)
  | i :: rest, lastDrawnYValue =>
    let yValue := i.1
    if yValue > MAX_DRAW_VALUE then drawRows s rest lastDrawnYValue
    else if yValue < MIN_DRAW_VALUE then DrawEmptyRows lastDrawnYValue (MIN_DRAW_VALUE - 1)
    else DrawEmptyRows lastDrawnYValue yValue ++ s.DrawNonEmptyRow yValue
      ++ drawRows s rest yValue

/-- The method `DrawAllCurrentlyAliveCells`. -/
def DrawAllCurrentlyAliveCells (s : CellPopulation) : List String :=
  DrawHeader ++ drawRows s s.current.reverse (MAX_DRAW_VALUE + 1)

end CellPopulation

/-- The number of alive-cell marks in what was drawn. -/
def starCount (out : List String) : Nat := out.count "*"

/-- The cell lies in the drawing window of half-width 25 around the origin. -/
def inDrawWindow (c : LifeCell) : Bool :=
  decide (MIN_DRAW_VALUE ≤ c.x ∧ c.x ≤ MAX_DRAW_VALUE
    ∧ MIN_DRAW_VALUE ≤ c.y ∧ c.y ≤ MAX_DRAW_VALUE)

/-! ## Specification side: alive sets and the Life rule on the torus -/

/-- Liveness of the cell (x, y) in a buffer: row y is present and lists x. -/
def gridAlive (g : LifeGrid_t) (x y : Int) : Bool :=
  match mapFind g y with
  | none => false
  | some row => decide (x ∈ row)

/-- The eight offsets (dx, dy) of a neighbour, in the order of enumeration. -/
def neighbourOffsets : List (Int × Int) :=
  [(-1, 1), (-1, 0), (-1, -1), (0, 1), (0, -1), (1, 1), (1, 0), (1, -1)]

/-- The neighbours of (x, y) on the torus of side 2^64: each offset is added
modulo 2^64 in two's complement, on each axis independently. -/
def torusNeighbours (x y : Int) : List LifeCell :=
  neighbourOffsets.map (fun d => LifeCell.mk (wrap64 (x + d.1)) (wrap64 (y + d.2)))

/-- Number of torus neighbours of (x, y) that are alive. -/
def aliveNeighbours (alive : Int → Int → Bool) (x y : Int) : Nat :=
  (torusNeighbours x y).countP (fun c => alive c.x c.y)

/-- Conway's rule: a cell is alive in the successor iff it is alive with two
or three alive neighbours, or dead with exactly three. -/
def lifeSuccessor (alive : Int → Int → Bool) (x y : Int) : Bool :=
  (alive x y && (aliveNeighbours alive x y == 2 || aliveNeighbours alive x y == 3))
    || (!alive x y && aliveNeighbours alive x y == 3)

/-- States an engine can be in: a fresh one, and what `AddAliveCell` (with
`int64_t` arguments) and `Iterate` make of a reachable one. -/
inductive Reachable : CellPopulation → Prop where
  | fresh : Reachable CellPopulation.new
  | add (s : CellPopulation) (x y : Int) :
      Reachable s → InRange x → InRange y → Reachable (s.AddAliveCell x y)
  | iterate (s : CellPopulation) : Reachable s → Reachable s.Iterate

/-- The test of `Iterate` on a candidate, as a function of the buffer the
liveness queries read. -/
def codeRule (g : LifeGrid_t) (c : LifeCell) : Bool :=
  let was := gridAlive g c.x c.y
  let cnt := (LifeCell.GetListOfNeighbors c.x c.y []).countP (fun i => gridAlive g i.x i.y)
  (was && cnt == 2) || (was && cnt == 3) || (!was && cnt == 3)

/-- The state of `Iterate` when its second loop starts: roles swapped, the new
current buffer and the candidate list cleared. -/
def CellPopulation.iterateBase (s : CellPopulation) : CellPopulation :=
  { s.SwapAliveCells.store s.SwapAliveCells.m_pCurrentlyAliveCells [] with
    m_PotentiallyChangedCells := [] }

/-- A run of `AddAliveCell` over a list of cells, in order. -/
def CellPopulation.addAll (s : CellPopulation) (cells : List LifeCell) : CellPopulation :=
  cells.foldl (fun st c => st.AddAliveCell c.x c.y) s

/-- The candidate list covers exactly the alive cells of the current buffer
and their neighbours, and every alive cell has `int64_t` coordinates. -/
def CandidateInv (s : CellPopulation) : Prop :=
  (∀ a b, gridAlive s.current a b = true → InRange a ∧ InRange b) ∧
  (∀ c, c ∈ s.m_PotentiallyChangedCells ↔
    (gridAlive s.current c.x c.y = true
      ∨ ∃ a b, gridAlive s.current a b = true ∧ c ∈ torusNeighbours a b))

/-- Successor on an axis of the torus: the maximum steps to the minimum,
every other value to the next integer. -/
def succ64 (v : Int) : Int := if v = MAX_VALUE then MIN_VALUE else v + 1

/-- Predecessor on an axis of the torus: the minimum steps to the maximum,
every other value to the previous integer. -/
def pred64 (v : Int) : Int := if v = MIN_VALUE then MAX_VALUE else v - 1

/-- A fresh engine seeded with the horizontal blinker (0,0), (1,0), (2,0). -/
def blinker : CellPopulation :=
  ((CellPopulation.new.AddAliveCell 0 0).AddAliveCell 1 0).AddAliveCell 2 0

/-- The blinker engine with a different role pointer for the previous
buffer and other contents in the buffer that is not current. -/
def blinkerStale : CellPopulation :=
  { blinker with m_AliveCellsB := [(5, [7, 8])], m_pPreviouslyAliveCells := BufferId.A }

/-- No column occurs twice in a row of the buffer. -/
def RowsNodup (g : LifeGrid_t) : Prop := ∀ e ∈ g, e.2.Nodup

/-- The state after `n` calls of `Iterate`. -/
def CellPopulation.iterateTimes : Nat → CellPopulation → CellPopulation
  | 0, s => s
  | n + 1, s => iterateTimes n s.Iterate

/-- A state that is not reachable: no alive cell, but an empty row in the
current buffer and a non-empty candidate list. -/
def deadWithCandidates : CellPopulation :=
  { m_AliveCellsA := [(0, [1])]
    m_AliveCellsB := [(4, [])]
    m_pCurrentlyAliveCells := BufferId.B
    m_pPreviouslyAliveCells := BufferId.A
    m_PotentiallyChangedCells := [LifeCell.mk 4 4, LifeCell.mk 1 0] }

/-- A fresh engine seeded with the 2x2 block (0,0), (1,0), (0,1), (1,1). -/
def blockEngine : CellPopulation :=
  (((CellPopulation.new.AddAliveCell 0 0).AddAliveCell 1 0).AddAliveCell 0 1).AddAliveCell 1 1

/-- Membership in the 2x2 block (0,0), (1,0), (0,1), (1,1). -/
def blockAlive (x y : Int) : Bool := decide ((x = 0 ∨ x = 1) ∧ (y = 0 ∨ y = 1))

/-- A list with its later repeats removed: the first occurrence of each cell
is kept, in order. -/
def keepFirst : List LifeCell → List LifeCell
  | [] => []
  | c :: l => c :: (keepFirst l).filter (fun d => decide (d ≠ c))

/-- The blinker engine with its candidate list stripped of later repeats. -/
def blinkerDeduped : CellPopulation :=
  { blinker with m_PotentiallyChangedCells := keepFirst blinker.m_PotentiallyChangedCells }

/-- The current buffer after `AddAliveCell`, as a function of the current
buffer before the call. -/
def gridAdd (g : LifeGrid_t) (x y : Int) : LifeGrid_t :=
  if x ∈ mapAt g y then g else mapAssign (mapIndex g y) y (mapAt g y ++ [x])

/-- The row keys of the buffer are strictly ascending. -/
def KeysSorted (g : LifeGrid_t) : Prop := (g.map Prod.fst).Pairwise (fun a b => a < b)

/-- No row of the buffer is empty. -/
def NonEmptyRows (g : LifeGrid_t) : Prop := ∀ e ∈ g, e.2 ≠ []

/-- A buffer as the engine builds it: ascending keys, rows without repeats,
no empty row. -/
def GridWF (g : LifeGrid_t) : Prop := KeysSorted g ∧ RowsNodup g ∧ NonEmptyRows g

/-- The cells stored in a buffer, row by row in stored order. -/
def aliveCells (g : LifeGrid_t) : List LifeCell :=
  g.flatMap (fun e => e.2.map (fun x => LifeCell.mk x e.1))

/-- The text written for one listed cell, in either flavour. -/
def cellText (bLife106Format : Bool) (c : LifeCell) : List String :=
  if bLife106Format then [toString c.x, " ", toString c.y, "\n"]
  else ["(", toString c.x, ",", " ", toString c.y, ") "]

/-! ## Machine integers -/

theorem wrap64_of_inRange (n : Int) (h : InRange n) : wrap64 n = n := by
  unfold InRange MIN_VALUE MAX_VALUE at h
  unfold wrap64
  omega

theorem inRange_wrap64 (n : Int) : InRange (wrap64 n) := by
  unfold InRange MIN_VALUE MAX_VALUE wrap64
  omega

/-- On `int64_t` arguments the source's neighbour list is the torus one. -/
theorem GetListOfNeighbors_eq_torus (x y : Int) (hx : InRange x) (hy : InRange y)
    (acc : List LifeCell) :
    LifeCell.GetListOfNeighbors x y acc = acc ++ torusNeighbours x y := by
  have hx0 := wrap64_of_inRange x hx
  have hy0 := wrap64_of_inRange y hy
  have e1 : (if x = MIN_VALUE then MAX_VALUE else wrap64 (x - 1)) = wrap64 (x + -1) := by
    unfold InRange MIN_VALUE MAX_VALUE at hx
    unfold MIN_VALUE MAX_VALUE wrap64
    split <;> omega
  have e2 : (if y = MIN_VALUE then MAX_VALUE else wrap64 (y - 1)) = wrap64 (y + -1) := by
    unfold InRange MIN_VALUE MAX_VALUE at hy
    unfold MIN_VALUE MAX_VALUE wrap64
    split <;> omega
  have e3 : (if x = MAX_VALUE then MIN_VALUE else wrap64 (x + 1)) = wrap64 (x + 1) := by
    unfold InRange MIN_VALUE MAX_VALUE at hx
    unfold MIN_VALUE MAX_VALUE wrap64
    split <;> omega
  have e4 : (if y = MAX_VALUE then MIN_VALUE else wrap64 (y + 1)) = wrap64 (y + 1) := by
    unfold InRange MIN_VALUE MAX_VALUE at hy
    unfold MIN_VALUE MAX_VALUE wrap64
    split <;> omega
  simp only [LifeCell.GetListOfNeighbors, torusNeighbours, neighbourOffsets, List.map, e1, e2,
    e3, e4, Int.add_zero, hx0, hy0]

/-! ## The row map -/

theorem mapFind_mapInsertEmpty_self (g : LifeGrid_t) (k : Int) (h : mapFind g k = none) :
    mapFind (mapInsertEmpty g k) k = some [] := by
  induction g with
  | nil => simp [mapInsertEmpty, mapFind]
  | cons e rest ih =>
    obtain ⟨k0, v0⟩ := e
    simp only [mapFind] at h
    by_cases hk : k0 = k
    · simp [hk] at h
    · simp only [hk, if_false] at h
      simp only [mapInsertEmpty]
      split
      · simp [mapFind]
      · simp [mapFind, hk, ih h]

theorem mapFind_mapInsertEmpty_ne (g : LifeGrid_t) (k k1 : Int) (h : k1 ≠ k) :
    mapFind (mapInsertEmpty g k) k1 = mapFind g k1 := by
  induction g with
  | nil => simp [mapInsertEmpty, mapFind, Ne.symm h]
  | cons e rest ih =>
    obtain ⟨k0, v0⟩ := e
    simp only [mapInsertEmpty]
    split
    · simp [mapFind, Ne.symm h]
    · simp [mapFind, ih]

theorem mapFind_mapAssign_self (g : LifeGrid_t) (k : Int) (row v : List Int)
    (h : mapFind g k = some v) : mapFind (mapAssign g k row) k = some row := by
  induction g with
  | nil => simp [mapFind] at h
  | cons e rest ih =>
    obtain ⟨k0, v0⟩ := e
    simp only [mapFind] at h
    by_cases hk : k0 = k
    · simp [mapAssign, mapFind, hk]
    · simp only [hk, if_false] at h
      simp [mapAssign, mapFind, hk, ih h]

theorem mapFind_mapAssign_ne (g : LifeGrid_t) (k k1 : Int) (row : List Int) (h : k1 ≠ k) :
    mapFind (mapAssign g k row) k1 = mapFind g k1 := by
  induction g with
  | nil => simp [mapAssign, mapFind]
  | cons e rest ih =>
    obtain ⟨k0, v0⟩ := e
    by_cases hk : k0 = k
    · subst hk
      simp [mapAssign, mapFind, Ne.symm h]
    · simp [mapAssign, mapFind, hk, ih]

theorem mapAssign_same (g : LifeGrid_t) (k : Int) (v : List Int) (h : mapFind g k = some v) :
    mapAssign g k v = g := by
  induction g with
  | nil => rfl
  | cons e rest ih =>
    obtain ⟨k0, v0⟩ := e
    simp only [mapFind] at h
    by_cases hk : k0 = k
    · simp only [hk, if_true, Option.some.injEq] at h
      simp [mapAssign, hk, h]
    · simp only [hk, if_false] at h
      simp [mapAssign, hk, ih h]

theorem mapFind_mapIndex_self (g : LifeGrid_t) (k : Int) :
    mapFind (mapIndex g k) k = some (mapAt g k) := by
  unfold mapIndex mapAt
  cases h : mapFind g k with
  | none => simp [mapFind_mapInsertEmpty_self g k h]
  | some v => simp [h]

theorem mapFind_mapIndex_ne (g : LifeGrid_t) (k k1 : Int) (h : k1 ≠ k) :
    mapFind (mapIndex g k) k1 = mapFind g k1 := by
  unfold mapIndex
  cases hf : mapFind g k with
  | none => simp [mapFind_mapInsertEmpty_ne g k k1 h]
  | some v => simp

theorem mapAt_mapIndex (g : LifeGrid_t) (k : Int) : mapAt (mapIndex g k) k = mapAt g k := by
  simp [mapAt, mapFind_mapIndex_self]

theorem mapIndex_of_mem (g : LifeGrid_t) (k x : Int) (h : x ∈ mapAt g k) :
    mapIndex g k = g := by
  unfold mapIndex
  cases hf : mapFind g k with
  | none => simp [mapAt, hf] at h
  | some v => rfl

theorem gridAlive_iff (g : LifeGrid_t) (x y : Int) : gridAlive g x y = true ↔ x ∈ mapAt g y := by
  unfold gridAlive mapAt
  cases mapFind g y <;> simp

/-- The current buffer after `AddAliveCell`, as a function of the buffer before. -/
theorem mapFind_after_add (g : LifeGrid_t) (x y k : Int) :
    mapFind (mapAssign (mapIndex g y) y (mapAt (mapIndex g y) y ++ [x])) k
      = if k = y then some (mapAt g y ++ [x]) else mapFind g k := by
  by_cases hk : k = y
  · subst hk
    simp [mapFind_mapAssign_self _ _ _ _ (mapFind_mapIndex_self g k), mapAt_mapIndex]
  · simp [hk, mapFind_mapAssign_ne _ _ _ _ hk, mapFind_mapIndex_ne _ _ _ hk]

/-! ## Buffers and role pointers -/

namespace CellPopulation

@[simp] theorem load_store_same (s : CellPopulation) (p : BufferId) (g : LifeGrid_t) :
    (s.store p g).load p = g := by
  cases p <;> rfl

theorem load_store_ne (s : CellPopulation) (p q : BufferId) (g : LifeGrid_t) (h : q ≠ p) :
    (s.store p g).load q = s.load q := by
  cases p <;> cases q <;> first | rfl | exact absurd rfl h

@[simp] theorem store_cur (s : CellPopulation) (p : BufferId) (g : LifeGrid_t) :
    (s.store p g).m_pCurrentlyAliveCells = s.m_pCurrentlyAliveCells := by
  cases p <;> rfl

@[simp] theorem store_prev (s : CellPopulation) (p : BufferId) (g : LifeGrid_t) :
    (s.store p g).m_pPreviouslyAliveCells = s.m_pPreviouslyAliveCells := by
  cases p <;> rfl

@[simp] theorem store_cands (s : CellPopulation) (p : BufferId) (g : LifeGrid_t) :
    (s.store p g).m_PotentiallyChangedCells = s.m_PotentiallyChangedCells := by
  cases p <;> rfl

theorem store_load_self (s : CellPopulation) (p : BufferId) : s.store p (s.load p) = s := by
  cases p <;> rfl

@[simp] theorem store_store (s : CellPopulation) (p : BufferId) (g g1 : LifeGrid_t) :
    (s.store p g).store p g1 = s.store p g1 := by
  cases p <;> rfl

@[simp] theorem current_store_cur (s : CellPopulation) (g : LifeGrid_t) :
    (s.store s.m_pCurrentlyAliveCells g).current = g := by
  simp [current]

theorem foldl_AddPotentiallyChangedCell (cells : List LifeCell) (s : CellPopulation) :
    cells.foldl (fun st i => st.AddPotentiallyChangedCell i.x i.y) s
      = { s with m_PotentiallyChangedCells := s.m_PotentiallyChangedCells ++ cells } := by
  induction cells generalizing s with
  | nil => simp
  | cons c rest ih =>
    simp only [List.foldl_cons, ih]
    simp [AddPotentiallyChangedCell]

/-- The call returns early, with nothing changed, on a cell that is alive. -/
theorem AddAliveCell_of_alive (s : CellPopulation) (x y : Int)
    (h : gridAlive s.current x y = true) : s.AddAliveCell x y = s := by
  have hm : x ∈ mapAt s.current y := (gridAlive_iff _ _ _).1 h
  have hi : mapIndex s.current y = s.current := mapIndex_of_mem _ _ _ hm
  have hs : s.store s.m_pCurrentlyAliveCells s.current = s := store_load_self s _
  simp only [AddAliveCell, hi, hs]
  simp [hm]

/-- The state after the call on a cell that is not alive. -/
theorem AddAliveCell_of_dead (s : CellPopulation) (x y : Int)
    (h : gridAlive s.current x y = false) :
    s.AddAliveCell x y =
      { s.store s.m_pCurrentlyAliveCells
          (mapAssign (mapIndex s.current y) y (mapAt (mapIndex s.current y) y ++ [x])) with
        m_PotentiallyChangedCells :=
          s.m_PotentiallyChangedCells ++
            (LifeCell.mk x y :: LifeCell.GetListOfNeighbors x y []) } := by
  have hm : ¬ x ∈ mapAt s.current y := by
    intro hc
    rw [(gridAlive_iff _ _ _).2 hc] at h
    exact Bool.noConfusion h
  simp only [AddAliveCell, current_store_cur, mapAt_mapIndex, hm, if_false, store_cur,
    store_store, foldl_AddPotentiallyChangedCell]
  simp [AddPotentiallyChangedCell]

@[simp] theorem AddAliveCell_cur (s : CellPopulation) (x y : Int) :
    (s.AddAliveCell x y).m_pCurrentlyAliveCells = s.m_pCurrentlyAliveCells := by
  cases h : gridAlive s.current x y
  · rw [AddAliveCell_of_dead s x y h]; simp
  · rw [AddAliveCell_of_alive s x y h]

@[simp] theorem AddAliveCell_prev (s : CellPopulation) (x y : Int) :
    (s.AddAliveCell x y).m_pPreviouslyAliveCells = s.m_pPreviouslyAliveCells := by
  cases h : gridAlive s.current x y
  · rw [AddAliveCell_of_dead s x y h]; simp
  · rw [AddAliveCell_of_alive s x y h]

theorem current_with_cands (s : CellPopulation) (l : List LifeCell) :
    ({ s with m_PotentiallyChangedCells := l } : CellPopulation).current = s.current := rfl

/-- Rows of the current buffer after `AddAliveCell`. -/
theorem mapFind_current_AddAliveCell (s : CellPopulation) (x y k : Int) :
    mapFind (s.AddAliveCell x y).current k =
      if k = y ∧ gridAlive s.current x y = false then some (mapAt s.current y ++ [x])
      else mapFind s.current k := by
  cases h : gridAlive s.current x y
  · rw [AddAliveCell_of_dead s x y h, current_with_cands, current_store_cur,
      mapFind_after_add]
    simp
  · rw [AddAliveCell_of_alive s x y h]; simp

/-- Alive set of the current buffer after `AddAliveCell`. -/
theorem gridAlive_AddAliveCell (s : CellPopulation) (x y a b : Int) :
    gridAlive (s.AddAliveCell x y).current a b = true
      ↔ gridAlive s.current a b = true ∨ (a = x ∧ b = y) := by
  by_cases hb : b = y
  · subst hb
    cases h : gridAlive s.current x b
    · rw [gridAlive_iff, gridAlive_iff, mapAt, mapFind_current_AddAliveCell]
      simp [h, mapAt]
    · rw [AddAliveCell_of_alive s x b h]
      constructor
      · exact Or.inl
      · rintro (h1 | ⟨rfl, -⟩)
        · exact h1
        · exact h
  · rw [gridAlive_iff, gridAlive_iff, mapAt, mapFind_current_AddAliveCell]
    simp [hb, mapAt]

end CellPopulation

/-! ## The transition -/

namespace CellPopulation

theorem foldl_push_filter (p : LifeCell → Bool) (l acc : List LifeCell) :
    l.foldl (fun cells c => if p c then cells ++ [c] else cells) acc = acc ++ l.filter p := by
  induction l generalizing acc with
  | nil => simp
  | cons c rest ih =>
    simp only [List.foldl_cons, ih, List.filter_cons]
    cases p c <;> simp

theorem foldl_count (p : LifeCell → Bool) (l : List LifeCell) (n : Nat) :
    l.foldl (fun cnt i => if p i then cnt + 1 else cnt) n = n + l.countP p := by
  induction l generalizing n with
  | nil => simp
  | cons c rest ih =>
    simp only [List.foldl_cons, ih, List.countP_cons]
    cases p c <;> simp
    omega

theorem WasCellPreviouslyAlive_eq (s : CellPopulation) (x y : Int) :
    s.WasCellPreviouslyAlive x y = gridAlive s.previous x y := rfl

theorem shouldBeAlive_eq (s : CellPopulation) (c : LifeCell) :
    s.shouldBeAlive c = codeRule s.previous c := by
  simp only [shouldBeAlive, codeRule, GetPreviouslyAliveNeighborCount, foldl_count,
    WasCellPreviouslyAlive_eq, Nat.zero_add]

theorem codeRule_eq_lifeSuccessor (g : LifeGrid_t) (c : LifeCell) (hx : InRange c.x)
    (hy : InRange c.y) : codeRule g c = lifeSuccessor (gridAlive g) c.x c.y := by
  simp only [codeRule, lifeSuccessor, aliveNeighbours, GetListOfNeighbors_eq_torus _ _ hx hy,
    List.nil_append]
  cases gridAlive g c.x c.y <;> simp

@[simp] theorem SwapAliveCells_previous (s : CellPopulation) :
    s.SwapAliveCells.previous = s.current := by
  unfold SwapAliveCells previous current
  cases h : s.m_pCurrentlyAliveCells <;> simp [load]

theorem SwapAliveCells_ne (s : CellPopulation) :
    s.SwapAliveCells.m_pPreviouslyAliveCells ≠ s.SwapAliveCells.m_pCurrentlyAliveCells := by
  unfold SwapAliveCells
  cases h : s.m_pCurrentlyAliveCells <;> simp

theorem previous_store_cur_swap (s : CellPopulation) (g : LifeGrid_t) :
    (s.SwapAliveCells.store s.SwapAliveCells.m_pCurrentlyAliveCells g).previous = s.current := by
  unfold previous
  rw [store_prev, load_store_ne _ _ _ _ (SwapAliveCells_ne s)]
  exact SwapAliveCells_previous s

theorem Iterate_eq (s : CellPopulation) :
    s.Iterate = s.iterateBase.addAll (s.m_PotentiallyChangedCells.filter (codeRule s.current)) := by
  have h1 : (s.SwapAliveCells.store s.SwapAliveCells.m_pCurrentlyAliveCells
      []).m_PotentiallyChangedCells = s.m_PotentiallyChangedCells := by
    rw [store_cands]; unfold SwapAliveCells; split <;> rfl
  have h2 : (fun c => (s.SwapAliveCells.store s.SwapAliveCells.m_pCurrentlyAliveCells
      []).shouldBeAlive c) = codeRule s.current := by
    funext c
    rw [shouldBeAlive_eq, previous_store_cur_swap]
  simp only [Iterate, addAll, iterateBase, foldl_push_filter, List.nil_append, h1]
  rw [← h2]

@[simp] theorem iterateBase_current (s : CellPopulation) : s.iterateBase.current = [] := by
  unfold iterateBase
  rw [current_with_cands, current_store_cur]

@[simp] theorem iterateBase_cands (s : CellPopulation) :
    s.iterateBase.m_PotentiallyChangedCells = [] := rfl

theorem addAll_nil (s : CellPopulation) : s.addAll [] = s := rfl

theorem addAll_cons (s : CellPopulation) (c : LifeCell) (cells : List LifeCell) :
    s.addAll (c :: cells) = (s.AddAliveCell c.x c.y).addAll cells := rfl

theorem addAll_append (s : CellPopulation) (l1 l2 : List LifeCell) :
    s.addAll (l1 ++ l2) = (s.addAll l1).addAll l2 := by
  simp [addAll, List.foldl_append]

@[simp] theorem addAll_cur (s : CellPopulation) (cells : List LifeCell) :
    (s.addAll cells).m_pCurrentlyAliveCells = s.m_pCurrentlyAliveCells := by
  induction cells generalizing s with
  | nil => rfl
  | cons c rest ih => rw [addAll_cons, ih, AddAliveCell_cur]

@[simp] theorem addAll_prev (s : CellPopulation) (cells : List LifeCell) :
    (s.addAll cells).m_pPreviouslyAliveCells = s.m_pPreviouslyAliveCells := by
  induction cells generalizing s with
  | nil => rfl
  | cons c rest ih => rw [addAll_cons, ih, AddAliveCell_prev]

/-- Alive set of the current buffer after a run of `AddAliveCell`. -/
theorem gridAlive_addAll (s : CellPopulation) (cells : List LifeCell) (a b : Int) :
    gridAlive (s.addAll cells).current a b = true
      ↔ gridAlive s.current a b = true ∨ LifeCell.mk a b ∈ cells := by
  induction cells generalizing s with
  | nil => simp [addAll_nil]
  | cons c rest ih =>
    rw [addAll_cons, ih, gridAlive_AddAliveCell]
    obtain ⟨cx, cy⟩ := c
    simp only [List.mem_cons, LifeCell.mk.injEq]
    tauto

/-- Alive set of the current buffer after `Iterate`, for any state. -/
theorem gridAlive_Iterate (s : CellPopulation) (a b : Int) :
    gridAlive s.Iterate.current a b = true
      ↔ LifeCell.mk a b ∈ s.m_PotentiallyChangedCells
          ∧ codeRule s.current (LifeCell.mk a b) = true := by
  rw [Iterate_eq, gridAlive_addAll, iterateBase_current]
  simp [gridAlive, mapFind]

end CellPopulation

/-! ## Neighbours on the torus -/

theorem neighbourOffsets_bound :
    ∀ d ∈ neighbourOffsets, -1 ≤ d.1 ∧ d.1 ≤ 1 ∧ -1 ≤ d.2 ∧ d.2 ≤ 1 ∧ ¬ (d.1 = 0 ∧ d.2 = 0) := by
  decide

theorem neighbourOffsets_neg : ∀ d ∈ neighbourOffsets, (-d.1, -d.2) ∈ neighbourOffsets := by
  decide

theorem mem_neighbourOffsets (dx dy : Int) :
    (dx, dy) ∈ neighbourOffsets
      ↔ (dx = -1 ∨ dx = 0 ∨ dx = 1) ∧ (dy = -1 ∨ dy = 0 ∨ dy = 1) ∧ ¬ (dx = 0 ∧ dy = 0) := by
  simp only [neighbourOffsets, List.mem_cons, Prod.mk.injEq, List.mem_singleton,
    List.not_mem_nil, or_false]
  omega

theorem wrap64_shift_inj (x d e : Int) (hd : -1 ≤ d ∧ d ≤ 1) (he : -1 ≤ e ∧ e ≤ 1)
    (h : wrap64 (x + d) = wrap64 (x + e)) : d = e := by
  unfold wrap64 at h
  omega

theorem wrap64_shift_back (x a d : Int) (hx : InRange x)
    (h : a = wrap64 (x + d)) : x = wrap64 (a + -d) := by
  unfold InRange MIN_VALUE MAX_VALUE at hx
  unfold wrap64 at h ⊢
  omega

theorem wrap64_shift_fixed (x d : Int) (hd : -1 ≤ d ∧ d ≤ 1)
    (h : x = wrap64 (x + d)) : d = 0 := by
  unfold wrap64 at h
  omega

theorem inRange_of_mem_torusNeighbours (x y : Int) (c : LifeCell)
    (h : c ∈ torusNeighbours x y) : InRange c.x ∧ InRange c.y := by
  simp only [torusNeighbours, List.mem_map] at h
  obtain ⟨d, -, rfl⟩ := h
  exact ⟨inRange_wrap64 _, inRange_wrap64 _⟩

/-- Adjacency on the torus is symmetric. -/
theorem torusNeighbours_symm (x y a b : Int) (hx : InRange x) (hy : InRange y)
    (h : LifeCell.mk a b ∈ torusNeighbours x y) : LifeCell.mk x y ∈ torusNeighbours a b := by
  simp only [torusNeighbours, List.mem_map, LifeCell.mk.injEq] at h ⊢
  obtain ⟨d, hd, h1, h2⟩ := h
  exact ⟨(-d.1, -d.2), neighbourOffsets_neg d hd,
    (wrap64_shift_back x a d.1 hx h1.symm).symm,
    (wrap64_shift_back y b d.2 hy h2.symm).symm⟩

theorem torusNeighbours_nodup (x y : Int) : (torusNeighbours x y).Nodup := by
  unfold torusNeighbours
  refine List.Nodup.map_on ?_ (by decide)
  intro d hd e he h
  obtain ⟨b1, b2, b3, b4, -⟩ := neighbourOffsets_bound d hd
  obtain ⟨c1, c2, c3, c4, -⟩ := neighbourOffsets_bound e he
  simp only [LifeCell.mk.injEq] at h
  exact Prod.ext (wrap64_shift_inj x _ _ ⟨b1, b2⟩ ⟨c1, c2⟩ h.1)
    (wrap64_shift_inj y _ _ ⟨b3, b4⟩ ⟨c3, c4⟩ h.2)

theorem self_not_mem_torusNeighbours (x y : Int) :
    LifeCell.mk x y ∉ torusNeighbours x y := by
  simp only [torusNeighbours, List.mem_map, LifeCell.mk.injEq, not_exists, not_and]
  intro d hd h1 h2
  obtain ⟨b1, b2, b3, b4, b5⟩ := neighbourOffsets_bound d hd
  exact b5 ⟨wrap64_shift_fixed x d.1 ⟨b1, b2⟩ h1.symm,
    wrap64_shift_fixed y d.2 ⟨b3, b4⟩ h2.symm⟩

/-! ## The candidate invariant -/

namespace CellPopulation

theorem cands_AddAliveCell (s : CellPopulation) (x y : Int) :
    (s.AddAliveCell x y).m_PotentiallyChangedCells =
      if gridAlive s.current x y = true then s.m_PotentiallyChangedCells
      else s.m_PotentiallyChangedCells ++
        (LifeCell.mk x y :: LifeCell.GetListOfNeighbors x y []) := by
  cases h : gridAlive s.current x y
  · rw [AddAliveCell_of_dead s x y h]; simp
  · rw [AddAliveCell_of_alive s x y h]; simp

theorem CandidateInv_AddAliveCell (s : CellPopulation) (x y : Int) (hx : InRange x)
    (hy : InRange y) (h : CandidateInv s) : CandidateInv (s.AddAliveCell x y) := by
  cases hal : gridAlive s.current x y
  · obtain ⟨h1, h2⟩ := h
    refine ⟨?_, ?_⟩
    · intro a b hab
      rcases (gridAlive_AddAliveCell s x y a b).1 hab with h3 | ⟨rfl, rfl⟩
      · exact h1 a b h3
      · exact ⟨hx, hy⟩
    · intro c
      rw [cands_AddAliveCell, hal]
      simp only [Bool.false_eq_true, if_false, List.mem_append, List.mem_cons, h2 c,
        GetListOfNeighbors_eq_torus x y hx hy, List.nil_append, gridAlive_AddAliveCell]
      constructor
      · rintro ((h3 | ⟨a, b, h3, h4⟩) | h3 | h3)
        · exact Or.inl (Or.inl h3)
        · exact Or.inr ⟨a, b, Or.inl h3, h4⟩
        · subst h3; exact Or.inl (Or.inr ⟨rfl, rfl⟩)
        · exact Or.inr ⟨x, y, Or.inr ⟨rfl, rfl⟩, h3⟩
      · rintro ((h3 | ⟨h3, h4⟩) | ⟨a, b, h3 | ⟨rfl, rfl⟩, h4⟩)
        · exact Or.inl (Or.inl h3)
        · obtain ⟨cx, cy⟩ := c
          simp only at h3 h4
          subst h3 h4
          exact Or.inr (Or.inl rfl)
        · exact Or.inl (Or.inr ⟨a, b, h3, h4⟩)
        · exact Or.inr (Or.inr h4)
  · rw [AddAliveCell_of_alive s x y hal]
    exact h

theorem CandidateInv_addAll (cells : List LifeCell) (s : CellPopulation)
    (hc : ∀ c ∈ cells, InRange c.x ∧ InRange c.y) (h : CandidateInv s) :
    CandidateInv (s.addAll cells) := by
  induction cells generalizing s with
  | nil => exact h
  | cons c rest ih =>
    rw [addAll_cons]
    have hcc := hc c (List.mem_cons_self _ _)
    exact ih _ (fun d hd => hc d (List.mem_cons_of_mem _ hd))
      (CandidateInv_AddAliveCell s c.x c.y hcc.1 hcc.2 h)

theorem gridAlive_nil (a b : Int) : gridAlive [] a b = false := rfl

theorem CandidateInv_iterateBase (s : CellPopulation) : CandidateInv s.iterateBase := by
  refine ⟨?_, ?_⟩
  · intro a b hab
    rw [iterateBase_current, gridAlive_nil] at hab
    exact Bool.noConfusion hab
  · intro c
    simp [iterateBase_current, gridAlive_nil]

theorem inRange_of_mem_cands (s : CellPopulation) (h : CandidateInv s) (c : LifeCell)
    (hc : c ∈ s.m_PotentiallyChangedCells) : InRange c.x ∧ InRange c.y := by
  rcases (h.2 c).1 hc with h1 | ⟨a, b, -, h2⟩
  · exact h.1 _ _ h1
  · exact inRange_of_mem_torusNeighbours a b c h2

theorem CandidateInv_Iterate (s : CellPopulation) (h : CandidateInv s) :
    CandidateInv s.Iterate := by
  rw [Iterate_eq]
  refine CandidateInv_addAll _ _ ?_ (CandidateInv_iterateBase s)
  intro c hc
  exact inRange_of_mem_cands s h c (List.mem_of_mem_filter hc)

theorem CandidateInv_new : CandidateInv CellPopulation.new := by
  refine ⟨?_, ?_⟩
  · intro a b hab
    exact Bool.noConfusion hab
  · intro c
    simp [CellPopulation.new, current, load, gridAlive_nil]

theorem candidateInv_of_reachable (s : CellPopulation) (h : Reachable s) : CandidateInv s := by
  induction h with
  | fresh => exact CandidateInv_new
  | add s x y _ hx hy ih => exact CandidateInv_AddAliveCell s x y hx hy ih
  | iterate s _ ih => exact CandidateInv_Iterate s ih

/-- A cell that the Life rule makes alive is on the candidate list. -/
theorem mem_cands_of_lifeSuccessor (s : CellPopulation) (h : CandidateInv s) (x y : Int)
    (hx : InRange x) (hy : InRange y)
    (hs : gridAlive s.current x y = true ∨ 0 < aliveNeighbours (gridAlive s.current) x y) :
    LifeCell.mk x y ∈ s.m_PotentiallyChangedCells := by
  rw [h.2]
  rcases hs with h1 | h1
  · exact Or.inl h1
  · unfold aliveNeighbours at h1
    obtain ⟨c, hc, hal⟩ := List.countP_pos_iff.1 h1
    obtain ⟨ca, cb⟩ := c
    exact Or.inr ⟨ca, cb, hal, torusNeighbours_symm x y ca cb hx hy hc⟩

end CellPopulation

/-! ## What `Iterate` reads -/

namespace CellPopulation

theorem iterateBase_congr (s t : CellPopulation)
    (h1 : t.m_pCurrentlyAliveCells = s.m_pCurrentlyAliveCells) (h2 : t.current = s.current) :
    t.iterateBase = s.iterateBase := by
  obtain ⟨sA, sB, sc, sp, sl⟩ := s
  obtain ⟨tA, tB, tc, tp, tl⟩ := t
  simp only at h1
  subst h1
  cases tc
  · simp only [current, load] at h2
    subst h2
    rfl
  · simp only [current, load] at h2
    subst h2
    rfl

/-- The result of `Iterate` is a function of the current role pointer, the
current buffer and the candidate list. -/
theorem Iterate_congr (s t : CellPopulation)
    (h1 : t.m_pCurrentlyAliveCells = s.m_pCurrentlyAliveCells) (h2 : t.current = s.current)
    (h3 : t.m_PotentiallyChangedCells = s.m_PotentiallyChangedCells) :
    t.Iterate = s.Iterate := by
  rw [Iterate_eq, Iterate_eq, iterateBase_congr s t h1 h2, h2, h3]

end CellPopulation

/-! ## Frame of `AddAliveCell` -/

theorem filter_mapInsertEmpty (g : LifeGrid_t) (y : Int) :
    (mapInsertEmpty g y).filter (fun e => decide (e.1 ≠ y))
      = g.filter (fun e => decide (e.1 ≠ y)) := by
  induction g with
  | nil => simp [mapInsertEmpty]
  | cons e rest ih =>
    obtain ⟨k0, v0⟩ := e
    simp only [mapInsertEmpty]
    split
    · simp
    · simp only [List.filter_cons, ih]

theorem filter_mapIndex (g : LifeGrid_t) (y : Int) :
    (mapIndex g y).filter (fun e => decide (e.1 ≠ y)) = g.filter (fun e => decide (e.1 ≠ y)) := by
  unfold mapIndex
  split
  · rfl
  · exact filter_mapInsertEmpty g y

theorem filter_mapAssign (g : LifeGrid_t) (y : Int) (row : List Int) :
    (mapAssign g y row).filter (fun e => decide (e.1 ≠ y))
      = g.filter (fun e => decide (e.1 ≠ y)) := by
  induction g with
  | nil => rfl
  | cons e rest ih =>
    obtain ⟨k0, v0⟩ := e
    by_cases hk : k0 = y
    · simp [mapAssign, hk]
    · simp only [mapAssign, hk, if_false, List.filter_cons, ih]

namespace CellPopulation

theorem load_AddAliveCell_ne (s : CellPopulation) (x y : Int) (q : BufferId)
    (hq : q ≠ s.m_pCurrentlyAliveCells) : (s.AddAliveCell x y).load q = s.load q := by
  cases h : gridAlive s.current x y
  · rw [AddAliveCell_of_dead s x y h]
    exact load_store_ne s _ q _ hq
  · rw [AddAliveCell_of_alive s x y h]

theorem load_addAll_ne (cells : List LifeCell) (s : CellPopulation) (q : BufferId)
    (hq : q ≠ s.m_pCurrentlyAliveCells) : (s.addAll cells).load q = s.load q := by
  induction cells generalizing s with
  | nil => rfl
  | cons c rest ih =>
    rw [addAll_cons, ih _ (by rw [AddAliveCell_cur]; exact hq), load_AddAliveCell_ne s _ _ q hq]

end CellPopulation

/-! ## Roles after `Iterate` -/

namespace CellPopulation

theorem SwapAliveCells_cur_ne (s : CellPopulation) :
    s.SwapAliveCells.m_pCurrentlyAliveCells ≠ s.m_pCurrentlyAliveCells := by
  unfold SwapAliveCells
  cases h : s.m_pCurrentlyAliveCells <;> simp

theorem SwapAliveCells_prev (s : CellPopulation) :
    s.SwapAliveCells.m_pPreviouslyAliveCells = s.m_pCurrentlyAliveCells := by
  unfold SwapAliveCells
  cases h : s.m_pCurrentlyAliveCells <;> simp

theorem bufferId_eq_of_ne (p q r : BufferId) (h1 : p ≠ r) (h2 : q ≠ r) : p = q := by
  cases p <;> cases q <;> cases r <;> simp_all

theorem iterateBase_cur (s : CellPopulation) :
    s.iterateBase.m_pCurrentlyAliveCells = s.SwapAliveCells.m_pCurrentlyAliveCells := by
  unfold iterateBase
  simp

theorem iterateBase_prev (s : CellPopulation) :
    s.iterateBase.m_pPreviouslyAliveCells = s.m_pCurrentlyAliveCells := by
  unfold iterateBase
  simp [SwapAliveCells_prev]

theorem iterateBase_load_prev (s : CellPopulation) :
    s.iterateBase.load s.m_pCurrentlyAliveCells = s.current := by
  have h := previous_store_cur_swap s []
  unfold previous at h
  rw [store_prev, SwapAliveCells_prev] at h
  exact h

theorem iterateBase_load (s : CellPopulation) (q : BufferId) :
    s.iterateBase.load q = if q = s.m_pCurrentlyAliveCells then s.current else [] := by
  by_cases hq : q = s.m_pCurrentlyAliveCells
  · rw [if_pos hq, hq, iterateBase_load_prev]
  · rw [if_neg hq]
    have h1 : q = s.iterateBase.m_pCurrentlyAliveCells := by
      rw [iterateBase_cur]
      exact bufferId_eq_of_ne _ _ _ hq (SwapAliveCells_cur_ne s)
    rw [h1]
    exact iterateBase_current s

theorem Iterate_cur (s : CellPopulation) :
    s.Iterate.m_pCurrentlyAliveCells = s.SwapAliveCells.m_pCurrentlyAliveCells := by
  rw [Iterate_eq, addAll_cur, iterateBase_cur]

theorem Iterate_prev (s : CellPopulation) :
    s.Iterate.m_pPreviouslyAliveCells = s.m_pCurrentlyAliveCells := by
  rw [Iterate_eq, addAll_prev, iterateBase_prev]

theorem Iterate_previous (s : CellPopulation) : s.Iterate.previous = s.current := by
  unfold previous
  rw [Iterate_prev, Iterate_eq, load_addAll_ne, iterateBase_load_prev]
  rw [iterateBase_cur]
  exact (SwapAliveCells_cur_ne s).symm

/-! ## Rows without repetition -/

theorem mem_mapInsertEmpty (g : LifeGrid_t) (k : Int) (e : Int × List Int)
    (h : e ∈ mapInsertEmpty g k) : e = (k, []) ∨ e ∈ g := by
  induction g with
  | nil => simpa [mapInsertEmpty] using h
  | cons e0 rest ih =>
    obtain ⟨k0, v0⟩ := e0
    simp only [mapInsertEmpty] at h
    split at h
    · simpa using h
    · rcases List.mem_cons.1 h with h1 | h1
      · exact Or.inr (h1 ▸ List.mem_cons_self _ _)
      · rcases ih h1 with h2 | h2
        · exact Or.inl h2
        · exact Or.inr (List.mem_cons_of_mem _ h2)

theorem mem_mapAssign (g : LifeGrid_t) (k : Int) (row : List Int) (e : Int × List Int)
    (h : e ∈ mapAssign g k row) : e = (k, row) ∨ e ∈ g := by
  induction g with
  | nil => simp [mapAssign] at h
  | cons e0 rest ih =>
    obtain ⟨k0, v0⟩ := e0
    simp only [mapAssign] at h
    split at h
    · rename_i hk
      subst hk
      rcases List.mem_cons.1 h with h1 | h1
      · exact Or.inl h1
      · exact Or.inr (List.mem_cons_of_mem _ h1)
    · rcases List.mem_cons.1 h with h1 | h1
      · exact Or.inr (h1 ▸ List.mem_cons_self _ _)
      · rcases ih h1 with h2 | h2
        · exact Or.inl h2
        · exact Or.inr (List.mem_cons_of_mem _ h2)

theorem mem_of_mapFind (g : LifeGrid_t) (k : Int) (v : List Int) (h : mapFind g k = some v) :
    (k, v) ∈ g := by
  induction g with
  | nil => simp [mapFind] at h
  | cons e0 rest ih =>
    obtain ⟨k0, v0⟩ := e0
    simp only [mapFind] at h
    split at h
    · rename_i hk
      subst hk
      simp only [Option.some.injEq] at h
      subst h
      exact List.mem_cons_self _ _
    · exact List.mem_cons_of_mem _ (ih h)

theorem nodup_mapAt (g : LifeGrid_t) (k : Int) (h : RowsNodup g) : (mapAt g k).Nodup := by
  unfold mapAt
  cases hf : mapFind g k with
  | none => exact List.nodup_nil
  | some v => exact h _ (mem_of_mapFind g k v hf)

theorem RowsNodup_mapIndex (g : LifeGrid_t) (k : Int) (h : RowsNodup g) :
    RowsNodup (mapIndex g k) := by
  unfold mapIndex
  split
  · exact h
  · intro e he
    rcases mem_mapInsertEmpty g k e he with h1 | h1
    · rw [h1]; exact List.nodup_nil
    · exact h e h1

theorem RowsNodup_current_AddAliveCell (s : CellPopulation) (x y : Int)
    (h : RowsNodup s.current) : RowsNodup (s.AddAliveCell x y).current := by
  cases hal : gridAlive s.current x y
  · rw [AddAliveCell_of_dead s x y hal, current_with_cands, current_store_cur, mapAt_mapIndex]
    intro e he
    rcases mem_mapAssign _ _ _ e he with h1 | h1
    · rw [h1]
      have hn : x ∉ mapAt s.current y := by
        intro hc
        rw [(gridAlive_iff _ _ _).2 hc] at hal
        exact Bool.noConfusion hal
      have h2 := List.Nodup.concat hn (nodup_mapAt s.current y h)
      rwa [List.concat_eq_append] at h2
    · exact RowsNodup_mapIndex _ _ h e h1
  · rw [AddAliveCell_of_alive s x y hal]
    exact h

theorem RowsNodup_load_AddAliveCell (s : CellPopulation) (x y : Int)
    (h : ∀ q, RowsNodup (s.load q)) (q : BufferId) : RowsNodup ((s.AddAliveCell x y).load q) := by
  by_cases hq : q = s.m_pCurrentlyAliveCells
  · have h1 := RowsNodup_current_AddAliveCell s x y (h _)
    unfold current at h1
    rw [AddAliveCell_cur] at h1
    rw [hq]
    exact h1
  · rw [load_AddAliveCell_ne s x y q hq]
    exact h q

theorem RowsNodup_load_addAll (cells : List LifeCell) (s : CellPopulation)
    (h : ∀ q, RowsNodup (s.load q)) (q : BufferId) : RowsNodup ((s.addAll cells).load q) := by
  induction cells generalizing s with
  | nil => exact h q
  | cons c rest ih =>
    rw [addAll_cons]
    exact ih _ (RowsNodup_load_AddAliveCell s c.x c.y h)

theorem RowsNodup_load_Iterate (s : CellPopulation) (h : ∀ q, RowsNodup (s.load q))
    (q : BufferId) : RowsNodup (s.Iterate.load q) := by
  rw [Iterate_eq]
  refine RowsNodup_load_addAll _ _ ?_ q
  intro r
  rw [iterateBase_load]
  split
  · exact h _
  · intro e he
    simp at he

theorem rowsNodup_of_reachable (s : CellPopulation) (h : Reachable s) (q : BufferId) :
    RowsNodup (s.load q) := by
  induction h generalizing q with
  | fresh =>
    intro e he
    cases q <;> simp [CellPopulation.new, load] at he
  | add s x y _ _ _ ih => exact RowsNodup_load_AddAliveCell s x y ih q
  | iterate s _ ih => exact RowsNodup_load_Iterate s ih q

/-! ## Empty populations -/

theorem codeRule_of_empty (g : LifeGrid_t) (h : ∀ x y, gridAlive g x y = false)
    (c : LifeCell) : codeRule g c = false := by
  have h0 :
      (LifeCell.GetListOfNeighbors c.x c.y []).countP (fun i => gridAlive g i.x i.y) = 0 := by
    rw [List.countP_eq_zero]
    intro i _
    simp [h]
  simp [codeRule, h, h0]

theorem Iterate_of_empty (s : CellPopulation) (h : ∀ x y, gridAlive s.current x y = false) :
    s.Iterate = s.iterateBase := by
  rw [Iterate_eq]
  have hf : s.m_PotentiallyChangedCells.filter (codeRule s.current) = [] := by
    rw [List.filter_eq_nil_iff]
    intro c _
    simp [codeRule_of_empty _ h c]
  rw [hf, addAll_nil]

theorem iterateTimes_succ (n : Nat) (s : CellPopulation) :
    iterateTimes (n + 1) s = (iterateTimes n s).Iterate := by
  induction n generalizing s with
  | zero => rfl
  | succ n ih =>
    show iterateTimes (n + 1) s.Iterate = _
    rw [ih]
    rfl

end CellPopulation

/-! ## The block -/

namespace CellPopulation

/-- With the candidate invariant, `Iterate` computes the Life successor. -/
theorem gridAlive_Iterate_of_inv (s : CellPopulation) (h : CandidateInv s) (x y : Int)
    (hx : InRange x) (hy : InRange y) :
    gridAlive s.Iterate.current x y = lifeSuccessor (gridAlive s.current) x y := by
  rw [Bool.eq_iff_iff, gridAlive_Iterate, codeRule_eq_lifeSuccessor _ _ hx hy]
  constructor
  · exact fun h1 => h1.2
  · intro hs
    refine ⟨mem_cands_of_lifeSuccessor s h x y hx hy ?_, hs⟩
    unfold lifeSuccessor at hs
    cases hal : gridAlive s.current x y
    · right
      simp [hal] at hs
      omega
    · exact Or.inl rfl

end CellPopulation

theorem near_of_wrap64_shift (x d : Int) (hx : InRange x) (hd : -1 ≤ d ∧ d ≤ 1)
    (h : wrap64 (x + d) = 0 ∨ wrap64 (x + d) = 1) : -1 ≤ x ∧ x ≤ 2 := by
  unfold InRange MIN_VALUE MAX_VALUE at hx
  unfold wrap64 at h
  omega

theorem lifeSuccessor_blockAlive (x y : Int) (hx : InRange x) (hy : InRange y) :
    lifeSuccessor blockAlive x y = blockAlive x y := by
  by_cases hb : (-1 ≤ x ∧ x ≤ 2) ∧ (-1 ≤ y ∧ y ≤ 2)
  · obtain ⟨⟨h1, h2⟩, ⟨h3, h4⟩⟩ := hb
    interval_cases x <;> interval_cases y <;> decide
  · have h0 : aliveNeighbours blockAlive x y = 0 := by
      unfold aliveNeighbours
      rw [List.countP_eq_zero]
      intro c hc
      simp only [torusNeighbours, List.mem_map] at hc
      obtain ⟨d, hd, rfl⟩ := hc
      obtain ⟨b1, b2, b3, b4, -⟩ := neighbourOffsets_bound d hd
      simp only [blockAlive, decide_eq_true_eq]
      intro hc2
      exact hb ⟨near_of_wrap64_shift x d.1 hx ⟨b1, b2⟩ hc2.1,
        near_of_wrap64_shift y d.2 hy ⟨b3, b4⟩ hc2.2⟩
    have hd : blockAlive x y = false := by
      simp only [blockAlive, decide_eq_false_iff_not]
      omega
    simp [lifeSuccessor, h0, hd]

theorem blockAlive_inRange (x y : Int) (h : blockAlive x y = true) : InRange x ∧ InRange y := by
  simp only [blockAlive, decide_eq_true_eq] at h
  unfold InRange MIN_VALUE MAX_VALUE
  omega

theorem blockEngine_reachable : Reachable blockEngine :=
  Reachable.add _ 1 1
    (Reachable.add _ 0 1
      (Reachable.add _ 1 0
        (Reachable.add _ 0 0 Reachable.fresh (by decide) (by decide)) (by decide) (by decide))
      (by decide) (by decide))
    (by decide) (by decide)

theorem gridAlive_blockEngine (x y : Int) :
    gridAlive blockEngine.current x y = blockAlive x y := by
  have e : blockEngine.current = [(0, [0, 1]), (1, [0, 1])] := by decide
  rw [e, Bool.eq_iff_iff]
  simp only [gridAlive, mapFind, blockAlive, decide_eq_true_eq]
  by_cases h0 : (0 : Int) = y
  · subst h0
    simp
  · by_cases h1 : (1 : Int) = y
    · subst h1
      simp
    · simp only [h0, h1, if_false]
      constructor
      · intro h
        exact Bool.noConfusion h
      · rintro ⟨-, h2 | h2⟩
        · exact absurd h2.symm h0
        · exact absurd h2.symm h1

theorem block_invariant (n : Nat) :
    CandidateInv (CellPopulation.iterateTimes n blockEngine)
      ∧ ∀ x y, gridAlive (CellPopulation.iterateTimes n blockEngine).current x y
          = blockAlive x y := by
  induction n with
  | zero =>
    exact ⟨CellPopulation.candidateInv_of_reachable _ blockEngine_reachable,
      gridAlive_blockEngine⟩
  | succ n ih =>
    obtain ⟨hinv, hal⟩ := ih
    rw [CellPopulation.iterateTimes_succ]
    have hinv2 := CellPopulation.CandidateInv_Iterate _ hinv
    refine ⟨hinv2, ?_⟩
    intro x y
    by_cases hr : InRange x ∧ InRange y
    · rw [CellPopulation.gridAlive_Iterate_of_inv _ hinv x y hr.1 hr.2]
      have hf : gridAlive (CellPopulation.iterateTimes n blockEngine).current = blockAlive := by
        funext a b
        exact hal a b
      rw [hf]
      exact lifeSuccessor_blockAlive x y hr.1 hr.2
    · have h1 : gridAlive (CellPopulation.iterateTimes n blockEngine).Iterate.current x y
          = false := by
        cases hc : gridAlive (CellPopulation.iterateTimes n blockEngine).Iterate.current x y
        · rfl
        · exact absurd (hinv2.1 x y hc) hr
      have h2 : blockAlive x y = false := by
        cases hc : blockAlive x y
        · rfl
        · exact absurd (blockAlive_inRange x y hc) hr
      rw [h1, h2]

/-! ## The current buffer as a function of the cells added -/

namespace CellPopulation

theorem current_AddAliveCell (s : CellPopulation) (x y : Int) :
    (s.AddAliveCell x y).current = gridAdd s.current x y := by
  unfold gridAdd
  cases h : gridAlive s.current x y
  · have hm : ¬ x ∈ mapAt s.current y := by
      intro hc
      rw [(gridAlive_iff _ _ _).2 hc] at h
      exact Bool.noConfusion h
    rw [AddAliveCell_of_dead s x y h, current_with_cands, current_store_cur, mapAt_mapIndex,
      if_neg hm]
  · rw [AddAliveCell_of_alive s x y h, if_pos ((gridAlive_iff _ _ _).1 h)]

theorem current_addAll (l : List LifeCell) (s : CellPopulation) :
    (s.addAll l).current = l.foldl (fun g c => gridAdd g c.x c.y) s.current := by
  induction l generalizing s with
  | nil => rfl
  | cons c rest ih => rw [addAll_cons, ih, current_AddAliveCell, List.foldl_cons]

/-- The candidate list after a run of `AddAliveCell` is a function of the
current buffer, the candidate list and the cells added. -/
theorem cands_addAll_congr (l : List LifeCell) (s t : CellPopulation)
    (h1 : t.current = s.current)
    (h2 : t.m_PotentiallyChangedCells = s.m_PotentiallyChangedCells) :
    (t.addAll l).m_PotentiallyChangedCells = (s.addAll l).m_PotentiallyChangedCells := by
  induction l generalizing s t with
  | nil => exact h2
  | cons c rest ih =>
    rw [addAll_cons, addAll_cons]
    apply ih
    · rw [current_AddAliveCell, current_AddAliveCell, h1]
    · rw [cands_AddAliveCell, cands_AddAliveCell, h1, h2]

end CellPopulation

/-! ## Well-formed buffers -/

theorem keys_mapAssign (g : LifeGrid_t) (k : Int) (row : List Int) :
    (mapAssign g k row).map Prod.fst = g.map Prod.fst := by
  induction g with
  | nil => rfl
  | cons e rest ih =>
    obtain ⟨k0, v0⟩ := e
    simp only [mapAssign]
    split
    · rfl
    · simp only [List.map_cons, ih]

theorem KeysSorted_mapInsertEmpty (g : LifeGrid_t) (k : Int) (h : KeysSorted g)
    (hf : mapFind g k = none) : KeysSorted (mapInsertEmpty g k) := by
  induction g with
  | nil => simp [mapInsertEmpty, KeysSorted]
  | cons e rest ih =>
    obtain ⟨k0, v0⟩ := e
    simp only [mapFind] at hf
    by_cases hk : k0 = k
    · simp [hk] at hf
    · simp only [hk, if_false] at hf
      unfold KeysSorted at h ih ⊢
      simp only [List.map_cons, List.pairwise_cons] at h
      simp only [mapInsertEmpty]
      split
      · rename_i hlt
        simp only [List.map_cons, List.pairwise_cons]
        refine ⟨?_, h⟩
        intro a ha
        rcases List.mem_cons.1 ha with h1 | h1
        · rw [h1]; exact hlt
        · exact lt_trans hlt (h.1 a h1)
      · rename_i hlt
        simp only [List.map_cons, List.pairwise_cons]
        refine ⟨?_, ih h.2 hf⟩
        intro a ha
        obtain ⟨e, he, rfl⟩ := List.mem_map.1 ha
        rcases CellPopulation.mem_mapInsertEmpty rest k e he with h1 | h1
        · rw [h1]
          show k0 < k
          omega
        · exact h.1 _ (List.mem_map_of_mem _ h1)

theorem KeysSorted_mapIndex (g : LifeGrid_t) (k : Int) (h : KeysSorted g) :
    KeysSorted (mapIndex g k) := by
  unfold mapIndex
  cases hf : mapFind g k with
  | none => exact KeysSorted_mapInsertEmpty g k h hf
  | some v => exact h

theorem mapFind_of_mem_sorted (g : LifeGrid_t) (k : Int) (v : List Int) (h : KeysSorted g)
    (hm : (k, v) ∈ g) : mapFind g k = some v := by
  induction g with
  | nil => simp at hm
  | cons e rest ih =>
    obtain ⟨k0, v0⟩ := e
    unfold KeysSorted at h ih
    simp only [List.map_cons, List.pairwise_cons] at h
    rcases List.mem_cons.1 hm with h1 | h1
    · simp only [Prod.mk.injEq] at h1
      simp [mapFind, h1.1, h1.2]
    · have hlt := h.1 k (List.mem_map_of_mem Prod.fst h1)
      have hne : ¬ k0 = k := by
        simp only at hlt
        omega
      simp only [mapFind, hne, if_false]
      exact ih h.2 h1

theorem GridWF_nil : GridWF [] := by
  refine ⟨?_, ?_, ?_⟩
  · simp [KeysSorted]
  · intro e he
    simp at he
  · intro e he
    simp at he

theorem mem_filter_of_key_ne (g : LifeGrid_t) (y : Int) (e : Int × List Int) (he : e ∈ g)
    (hk : e.1 ≠ y) : e ∈ g.filter (fun e => decide (e.1 ≠ y)) := by
  rw [List.mem_filter]
  exact ⟨he, by simpa using hk⟩

theorem GridWF_gridAdd (g : LifeGrid_t) (x y : Int) (h : GridWF g) : GridWF (gridAdd g x y) := by
  unfold gridAdd
  by_cases hm : x ∈ mapAt g y
  · rw [if_pos hm]
    exact h
  · rw [if_neg hm]
    obtain ⟨h1, h2, h3⟩ := h
    have hs : KeysSorted (mapAssign (mapIndex g y) y (mapAt g y ++ [x])) := by
      unfold KeysSorted
      rw [keys_mapAssign]
      exact KeysSorted_mapIndex g y h1
    have hfind : mapFind (mapAssign (mapIndex g y) y (mapAt g y ++ [x])) y
        = some (mapAt g y ++ [x]) := by
      have := mapFind_after_add g x y y
      rw [mapAt_mapIndex] at this
      simpa using this
    refine ⟨hs, ?_, ?_⟩
    · intro e he
      rcases CellPopulation.mem_mapAssign _ _ _ e he with h4 | h4
      · rw [h4]
        have h5 := List.Nodup.concat hm (CellPopulation.nodup_mapAt g y h2)
        rwa [List.concat_eq_append] at h5
      · exact CellPopulation.RowsNodup_mapIndex _ _ h2 e h4
    · intro e he
      obtain ⟨k, v⟩ := e
      by_cases hk : k = y
      · subst hk
        have h4 := mapFind_of_mem_sorted _ k v hs he
        rw [hfind] at h4
        simp only [Option.some.injEq] at h4
        rw [← h4]
        simp
      · have h4 := mem_filter_of_key_ne _ y (k, v) he hk
        rw [filter_mapAssign, filter_mapIndex] at h4
        exact h3 _ (List.mem_of_mem_filter h4)

namespace CellPopulation

/-- A property of buffers that holds of the empty buffer and is kept by
`AddAliveCell` holds of both buffers of every reachable state. -/
theorem load_inv_of_reachable (P : LifeGrid_t → Prop) (h0 : P [])
    (hadd : ∀ g x y, P g → P (gridAdd g x y)) (s : CellPopulation) (h : Reachable s)
    (q : BufferId) : P (s.load q) := by
  have hstep : ∀ (t : CellPopulation) (x y : Int), (∀ r, P (t.load r)) →
      ∀ r, P ((t.AddAliveCell x y).load r) := by
    intro t x y ht r
    by_cases hr : r = t.m_pCurrentlyAliveCells
    · have h1 := current_AddAliveCell t x y
      unfold current at h1
      rw [AddAliveCell_cur] at h1
      rw [hr, h1]
      exact hadd _ x y (ht _)
    · rw [load_AddAliveCell_ne t x y r hr]
      exact ht r
  have hall : ∀ (l : List LifeCell) (t : CellPopulation), (∀ r, P (t.load r)) →
      ∀ r, P ((t.addAll l).load r) := by
    intro l
    induction l with
    | nil => exact fun t ht => ht
    | cons c rest ih =>
      intro t ht
      rw [addAll_cons]
      exact ih _ (hstep t c.x c.y ht)
  induction h generalizing q with
  | fresh => cases q <;> exact h0
  | add s x y _ _ _ ih => exact hstep s x y ih q
  | iterate s _ ih =>
    rw [Iterate_eq]
    refine hall _ _ ?_ q
    intro r
    rw [iterateBase_load]
    split
    · exact ih _
    · exact h0

theorem gridWF_of_reachable (s : CellPopulation) (h : Reachable s) (q : BufferId) :
    GridWF (s.load q) :=
  load_inv_of_reachable GridWF GridWF_nil GridWF_gridAdd s h q

end CellPopulation

theorem key_present_iff_alive (g : LifeGrid_t) (h : NonEmptyRows g) (y : Int) :
    mapFind g y ≠ none ↔ ∃ x, gridAlive g x y = true := by
  constructor
  · intro hf
    cases hv : mapFind g y with
    | none => exact absurd hv hf
    | some v =>
      have hne := h _ (CellPopulation.mem_of_mapFind g y v hv)
      obtain ⟨x, hx⟩ := List.exists_mem_of_ne_nil v hne
      exact ⟨x, by simp [gridAlive, hv, hx]⟩
  · rintro ⟨x, hx⟩ hf
    simp [gridAlive, hf] at hx

/-! ## Counting alive cells -/

theorem aliveCells_cons (e : Int × List Int) (g : LifeGrid_t) :
    aliveCells (e :: g) = e.2.map (fun x => LifeCell.mk x e.1) ++ aliveCells g := by
  simp [aliveCells]

theorem length_aliveCells_mapInsertEmpty (g : LifeGrid_t) (k : Int) :
    (aliveCells (mapInsertEmpty g k)).length = (aliveCells g).length := by
  induction g with
  | nil => rfl
  | cons e rest ih =>
    obtain ⟨k0, v0⟩ := e
    simp only [mapInsertEmpty]
    split
    · simp [aliveCells_cons]
    · simp [aliveCells_cons, ih]

theorem length_aliveCells_mapIndex (g : LifeGrid_t) (k : Int) :
    (aliveCells (mapIndex g k)).length = (aliveCells g).length := by
  unfold mapIndex
  split
  · rfl
  · exact length_aliveCells_mapInsertEmpty g k

theorem length_aliveCells_mapAssign (g : LifeGrid_t) (k : Int) (row v : List Int)
    (h : mapFind g k = some v) :
    (aliveCells (mapAssign g k row)).length + v.length
      = (aliveCells g).length + row.length := by
  induction g with
  | nil => simp [mapFind] at h
  | cons e rest ih =>
    obtain ⟨k0, v0⟩ := e
    simp only [mapFind] at h
    by_cases hk : k0 = k
    · simp only [hk, if_true, Option.some.injEq] at h
      subst h
      simp only [mapAssign, hk, if_true, aliveCells_cons, List.length_append, List.length_map]
      omega
    · simp only [hk, if_false] at h
      have := ih h
      simp only [mapAssign, hk, if_false, aliveCells_cons, List.length_append, List.length_map]
      omega

theorem length_aliveCells_gridAdd (g : LifeGrid_t) (x y : Int) :
    (aliveCells (gridAdd g x y)).length
      = (aliveCells g).length + if x ∈ mapAt g y then 0 else 1 := by
  unfold gridAdd
  by_cases hm : x ∈ mapAt g y
  · simp [hm]
  · simp only [hm, if_false]
    have h1 := length_aliveCells_mapAssign (mapIndex g y) y (mapAt g y ++ [x]) (mapAt g y)
      (mapFind_mapIndex_self g y)
    rw [length_aliveCells_mapIndex] at h1
    simp only [List.length_append, List.length_singleton] at h1
    omega

theorem length_aliveCells_foldl_le (l : List LifeCell) (g : LifeGrid_t) :
    (aliveCells (l.foldl (fun g c => gridAdd g c.x c.y) g)).length
      ≤ (aliveCells g).length + l.length := by
  induction l generalizing g with
  | nil => simp
  | cons c rest ih =>
    have h1 := ih (gridAdd g c.x c.y)
    have h2 := length_aliveCells_gridAdd g c.x c.y
    simp only [List.foldl_cons, List.length_cons]
    split at h2 <;> omega

theorem mem_aliveCells (g : LifeGrid_t) (x y : Int) :
    LifeCell.mk x y ∈ aliveCells g ↔ ∃ row, (y, row) ∈ g ∧ x ∈ row := by
  simp only [aliveCells, List.mem_flatMap, List.mem_map, LifeCell.mk.injEq, Prod.exists]
  constructor
  · rintro ⟨k, v, h1, a, h2, rfl, rfl⟩
    exact ⟨v, h1, h2⟩
  · rintro ⟨row, h1, h2⟩
    exact ⟨y, row, h1, x, h2, rfl, rfl⟩

theorem mem_aliveCells_iff_alive (g : LifeGrid_t) (h : KeysSorted g) (x y : Int) :
    LifeCell.mk x y ∈ aliveCells g ↔ gridAlive g x y = true := by
  rw [mem_aliveCells, gridAlive_iff]
  constructor
  · rintro ⟨row, h1, h2⟩
    simp [mapAt, mapFind_of_mem_sorted g y row h h1, h2]
  · intro hm
    unfold mapAt at hm
    cases hf : mapFind g y with
    | none => simp [hf] at hm
    | some v =>
      rw [hf] at hm
      exact ⟨v, CellPopulation.mem_of_mapFind g y v hf, hm⟩

theorem nodup_aliveCells (g : LifeGrid_t) (h1 : KeysSorted g) (h2 : RowsNodup g) :
    (aliveCells g).Nodup := by
  unfold aliveCells
  rw [List.nodup_flatMap]
  constructor
  · intro e he
    refine List.Nodup.map ?_ (h2 e he)
    intro a b hab
    simp only [LifeCell.mk.injEq] at hab
    exact hab.1
  · unfold KeysSorted at h1
    rw [List.pairwise_map] at h1
    refine List.Pairwise.imp ?_ h1
    intro a b hlt
    simp only [Function.onFun]
    intro c hca hcb
    simp only [List.mem_map] at hca hcb
    obtain ⟨xa, -, rfl⟩ := hca
    obtain ⟨xb, -, hb⟩ := hcb
    simp only [LifeCell.mk.injEq] at hb
    omega

namespace CellPopulation

theorem length_GetListOfNeighbors (x y : Int) :
    (LifeCell.GetListOfNeighbors x y []).length = 8 := by
  simp [LifeCell.GetListOfNeighbors]

theorem countInv_AddAliveCell (s : CellPopulation) (x y : Int)
    (h : s.m_PotentiallyChangedCells.length = 9 * (aliveCells s.current).length) :
    (s.AddAliveCell x y).m_PotentiallyChangedCells.length
      = 9 * (aliveCells (s.AddAliveCell x y).current).length := by
  rw [current_AddAliveCell, length_aliveCells_gridAdd, cands_AddAliveCell]
  by_cases hm : x ∈ mapAt s.current y
  · simp [hm, (gridAlive_iff _ _ _).2 hm, h]
  · have hd : ¬ gridAlive s.current x y = true := fun hc => hm ((gridAlive_iff _ _ _).1 hc)
    rw [if_neg hd, if_neg hm]
    simp only [List.length_append, List.length_cons, length_GetListOfNeighbors]
    omega

theorem countInv_addAll (l : List LifeCell) (s : CellPopulation)
    (h : s.m_PotentiallyChangedCells.length = 9 * (aliveCells s.current).length) :
    (s.addAll l).m_PotentiallyChangedCells.length
      = 9 * (aliveCells (s.addAll l).current).length := by
  induction l generalizing s with
  | nil => exact h
  | cons c rest ih =>
    rw [addAll_cons]
    exact ih _ (countInv_AddAliveCell s c.x c.y h)

theorem countInv_Iterate (s : CellPopulation) :
    s.Iterate.m_PotentiallyChangedCells.length
      = 9 * (aliveCells s.Iterate.current).length := by
  rw [Iterate_eq]
  apply countInv_addAll
  rw [iterateBase_current]
  rfl

theorem countInv_of_reachable (s : CellPopulation) (h : Reachable s) :
    s.m_PotentiallyChangedCells.length = 9 * (aliveCells s.current).length := by
  induction h with
  | fresh => rfl
  | add s x y _ _ _ ih => exact countInv_AddAliveCell s x y ih
  | iterate s _ _ => exact countInv_Iterate s

theorem length_aliveCells_Iterate_le (s : CellPopulation) :
    (aliveCells s.Iterate.current).length ≤ s.m_PotentiallyChangedCells.length := by
  rw [Iterate_eq, current_addAll, iterateBase_current]
  have h1 := length_aliveCells_foldl_le
    (s.m_PotentiallyChangedCells.filter (codeRule s.current)) []
  have h2 := List.length_filter_le (codeRule s.current) s.m_PotentiallyChangedCells
  have h3 : (aliveCells []).length = 0 := rfl
  omega

end CellPopulation

/-! ## The listing -/

namespace CellPopulation

theorem print_row_fold (fmt : Bool) (y : Int) (row : List Int) (acc : Bool × List String) :
    row.foldl
        (fun (acc : Bool × List String) j =>
          let out := acc.2
          let out := if !fmt then out ++ ["("] else out
          let out := out ++ [toString j]
          let out := if !fmt then out ++ [","] else out
          let out := out ++ [" ", toString y]
          let out := if fmt then out ++ ["\n"] else out ++ [") "]
          (false, out))
        acc
      = (acc.1 && row.isEmpty,
          acc.2 ++ (row.map (fun j => LifeCell.mk j y)).flatMap (cellText fmt)) := by
  induction row generalizing acc with
  | nil => simp
  | cons j rest ih =>
    rw [List.foldl_cons, ih]
    cases fmt <;> simp [cellText]

theorem print_rows_fold (fmt : Bool) (f : Int → List Int) (rows : LifeGrid_t)
    (acc : Bool × List String) :
    rows.foldl
        (fun (acc : Bool × List String) i =>
          let yValue := i.1
          (f i.1).foldl
            (fun (acc : Bool × List String) j =>
              let out := acc.2
              let out := if !fmt then out ++ ["("] else out
              let out := out ++ [toString j]
              let out := if !fmt then out ++ [","] else out
              let out := out ++ [" ", toString yValue]
              let out := if fmt then out ++ ["\n"] else out ++ [") "]
              (false, out))
            acc)
        acc
      = (acc.1 && (rows.flatMap (fun i => (f i.1).map (fun j => LifeCell.mk j i.1))).isEmpty,
          acc.2 ++ (rows.flatMap
            (fun i => (f i.1).map (fun j => LifeCell.mk j i.1))).flatMap (cellText fmt)) := by
  induction rows generalizing acc with
  | nil => simp
  | cons i rest ih =>
    rw [List.foldl_cons]
    simp only []
    rw [print_row_fold, ih]
    have hE : ∀ a b : List LifeCell, (a ++ b).isEmpty = (a.isEmpty && b.isEmpty) := by
      intro a b
      cases a <;> simp
    have hM : ∀ l : List Int, (l.map (fun j => LifeCell.mk j i.1)).isEmpty = l.isEmpty := by
      intro l
      cases l <;> simp
    simp only [List.flatMap_cons, hE, hM, List.flatMap_append, Bool.and_assoc,
      List.append_assoc]

/-- What `PrintAllCurrentlyAliveCells` writes, in terms of the cells it visits. -/
theorem PrintAllCurrentlyAliveCells_eq (s : CellPopulation) (fmt : Bool) :
    s.PrintAllCurrentlyAliveCells fmt
      = (if fmt then [clearTheScreenText, "#Life 1.06", "\n"] else [])
          ++ s.printedCells.flatMap (cellText fmt) ++ ["\n"]
          ++ (if s.printedCells.isEmpty && !fmt then ["All cells are dead.", "\n"] else []) := by
  unfold PrintAllCurrentlyAliveCells
  simp only []
  rw [print_rows_fold fmt (mapAt s.current) s.current]
  unfold printedCells
  simp only [Bool.true_and]
  split <;> simp

end CellPopulation

/-! ## Rebuilding a buffer from its listing -/

theorem mapFind_none_of_lt (g : LifeGrid_t) (y : Int) (h : ∀ e ∈ g, e.1 < y) :
    mapFind g y = none := by
  induction g with
  | nil => rfl
  | cons e rest ih =>
    obtain ⟨k0, v0⟩ := e
    have h0 : k0 < y := h (k0, v0) (List.mem_cons_self _ _)
    have hne : ¬ k0 = y := by omega
    simp only [mapFind, hne, if_false]
    exact ih (fun e he => h e (List.mem_cons_of_mem _ he))

theorem mapInsertEmpty_of_lt (g : LifeGrid_t) (y : Int) (h : ∀ e ∈ g, e.1 < y) :
    mapInsertEmpty g y = g ++ [(y, [])] := by
  induction g with
  | nil => rfl
  | cons e rest ih =>
    obtain ⟨k0, v0⟩ := e
    have h0 : k0 < y := h (k0, v0) (List.mem_cons_self _ _)
    have hne : ¬ y < k0 := by omega
    have hrest := ih (fun e he => h e (List.mem_cons_of_mem _ he))
    simp only [mapInsertEmpty, hne, if_false, List.cons_append]
    exact congrArg _ hrest

theorem mapFind_append_last (g : LifeGrid_t) (y : Int) (r : List Int)
    (h : ∀ e ∈ g, e.1 < y) : mapFind (g ++ [(y, r)]) y = some r := by
  induction g with
  | nil => simp [mapFind]
  | cons e rest ih =>
    obtain ⟨k0, v0⟩ := e
    have h0 : k0 < y := h (k0, v0) (List.mem_cons_self _ _)
    have hne : ¬ k0 = y := by omega
    simp only [List.cons_append, mapFind, hne, if_false]
    exact ih (fun e he => h e (List.mem_cons_of_mem _ he))

theorem mapAssign_append_last (g : LifeGrid_t) (y : Int) (r r1 : List Int)
    (h : ∀ e ∈ g, e.1 < y) : mapAssign (g ++ [(y, r)]) y r1 = g ++ [(y, r1)] := by
  induction g with
  | nil => simp [mapAssign]
  | cons e rest ih =>
    obtain ⟨k0, v0⟩ := e
    have h0 : k0 < y := h (k0, v0) (List.mem_cons_self _ _)
    have hne : ¬ k0 = y := by omega
    have hrest := ih (fun e he => h e (List.mem_cons_of_mem _ he))
    simp only [List.cons_append, mapAssign, hne, if_false]
    exact congrArg _ hrest

theorem gridAdd_last (g : LifeGrid_t) (x y : Int) (r : List Int) (h : ∀ e ∈ g, e.1 < y)
    (hx : x ∉ r) : gridAdd (g ++ [(y, r)]) x y = g ++ [(y, r ++ [x])] := by
  have hf := mapFind_append_last g y r h
  have hat : mapAt (g ++ [(y, r)]) y = r := by simp [mapAt, hf]
  have hi : mapIndex (g ++ [(y, r)]) y = g ++ [(y, r)] := by simp [mapIndex, hf]
  unfold gridAdd
  rw [hat, if_neg hx, hi, mapAssign_append_last g y r _ h]

theorem gridAdd_new (g : LifeGrid_t) (x y : Int) (h : ∀ e ∈ g, e.1 < y) :
    gridAdd g x y = g ++ [(y, [x])] := by
  have hf := mapFind_none_of_lt g y h
  have hat : mapAt g y = [] := by simp [mapAt, hf]
  have hi : mapIndex g y = g ++ [(y, [])] := by
    simp only [mapIndex, hf]
    exact mapInsertEmpty_of_lt g y h
  unfold gridAdd
  rw [hat, if_neg (List.not_mem_nil x), hi, mapAssign_append_last g y [] _ h]
  rfl

theorem foldl_gridAdd_row (xs : List Int) (g : LifeGrid_t) (y : Int) (r : List Int)
    (h : ∀ e ∈ g, e.1 < y) (hn : (r ++ xs).Nodup) :
    (xs.map (fun x => LifeCell.mk x y)).foldl (fun g c => gridAdd g c.x c.y) (g ++ [(y, r)])
      = g ++ [(y, r ++ xs)] := by
  induction xs generalizing r with
  | nil => simp
  | cons x rest ih =>
    have hx : x ∉ r := by
      intro hc
      rw [List.nodup_append] at hn
      exact hn.2.2 hc (List.mem_cons_self _ _)
    simp only [List.map_cons, List.foldl_cons]
    rw [gridAdd_last g x y r h hx, ih (r ++ [x]) (by simpa using hn)]
    simp

theorem foldl_gridAdd_new_row (xs : List Int) (g : LifeGrid_t) (y : Int)
    (h : ∀ e ∈ g, e.1 < y) (hn : xs.Nodup) (hne : xs ≠ []) :
    (xs.map (fun x => LifeCell.mk x y)).foldl (fun g c => gridAdd g c.x c.y) g
      = g ++ [(y, xs)] := by
  cases xs with
  | nil => exact absurd rfl hne
  | cons x rest =>
    simp only [List.map_cons, List.foldl_cons]
    rw [gridAdd_new g x y h, foldl_gridAdd_row rest g y [x] h (by simpa using hn)]
    rfl

/-- Adding the stored cells of a well-formed buffer, in stored order, after
rows with smaller keys appends that buffer. -/
theorem foldl_gridAdd_aliveCells (g2 g1 : LifeGrid_t) (hwf : GridWF g2)
    (hlt : ∀ e1 ∈ g1, ∀ e2 ∈ g2, e1.1 < e2.1) :
    (aliveCells g2).foldl (fun g c => gridAdd g c.x c.y) g1 = g1 ++ g2 := by
  induction g2 generalizing g1 with
  | nil => simp [aliveCells]
  | cons e rest ih =>
    obtain ⟨hs, hn, hne⟩ := hwf
    have hs2 := hs
    unfold KeysSorted at hs2
    simp only [List.map_cons, List.pairwise_cons] at hs2
    have hwf2 : GridWF rest :=
      ⟨hs2.2, fun e0 he0 => hn e0 (List.mem_cons_of_mem _ he0),
        fun e0 he0 => hne e0 (List.mem_cons_of_mem _ he0)⟩
    rw [aliveCells_cons, List.foldl_append,
      foldl_gridAdd_new_row e.2 g1 e.1 (fun e1 he1 => hlt e1 he1 e (List.mem_cons_self _ _))
        (hn e (List.mem_cons_self _ _)) (hne e (List.mem_cons_self _ _)),
      ih (g1 ++ [(e.1, e.2)]) hwf2]
    · simp
    · intro e1 he1 e2 he2
      rcases List.mem_append.1 he1 with h1 | h1
      · exact hlt e1 h1 e2 (List.mem_cons_of_mem _ he2)
      · simp only [List.mem_singleton] at h1
        rw [h1]
        exact hs2.1 e2.1 (List.mem_map_of_mem Prod.fst he2)

theorem keys_ascending_aliveCells (g : LifeGrid_t) (h : KeysSorted g) :
    ((aliveCells g).map (fun c => c.y)).Pairwise (fun a b => a ≤ b) := by
  induction g with
  | nil => simp [aliveCells]
  | cons e rest ih =>
    unfold KeysSorted at h ih
    simp only [List.map_cons, List.pairwise_cons] at h
    rw [aliveCells_cons, List.map_append, List.pairwise_append]
    refine ⟨?_, ih h.2, ?_⟩
    · simp only [List.map_map]
      rw [List.pairwise_map, List.pairwise_iff_forall_sublist]
      intro a b _
      exact le_refl _
    · intro a ha b hb
      simp only [List.map_map, List.mem_map, Function.comp] at ha
      obtain ⟨x, -, rfl⟩ := ha
      obtain ⟨c, hc, rfl⟩ := List.mem_map.1 hb
      obtain ⟨cx, cy⟩ := c
      obtain ⟨row, hrow, -⟩ := (mem_aliveCells rest cx cy).1 hc
      exact le_of_lt (h.1 cy (List.mem_map_of_mem Prod.fst hrow))

namespace CellPopulation

theorem printedCells_eq_aliveCells (s : CellPopulation) (h : KeysSorted s.current) :
    s.printedCells = aliveCells s.current := by
  unfold printedCells aliveCells
  apply List.flatMap_congr
  intro e he
  have : mapAt s.current e.1 = e.2 := by
    simp [mapAt, mapFind_of_mem_sorted s.current e.1 e.2 h he]
  rw [this]

end CellPopulation

/-! ## Seeding -/

theorem parseSeedLine_nil : parseSeedLine [] = none := by decide

theorem ProcessStartState_accepted (cells : List LifeCell) (pre rest : List (List Char))
    (s : CellPopulation)
    (hpre : pre.map parseSeedLine = cells.map (fun c => some (c.x, c.y))) :
    ProcessStartState s (pre ++ rest) = ProcessStartState (s.addAll cells) rest := by
  induction pre generalizing s cells with
  | nil =>
    cases cells with
    | nil => rfl
    | cons c cs => simp at hpre
  | cons l ls ih =>
    cases cells with
    | nil => simp at hpre
    | cons c cs =>
      simp only [List.map_cons, List.cons.injEq] at hpre
      obtain ⟨h1, h2⟩ := hpre
      have hne : l.isEmpty = false := by
        cases l with
        | nil => rw [parseSeedLine_nil] at h1; exact Option.noConfusion h1
        | cons a as => rfl
      simp only [List.cons_append, ProcessStartState, hne, AddAliveCellFromString, h1]
      rw [CellPopulation.addAll_cons]
      exact ih cs (s.AddAliveCell c.x c.y) h2

/-! ## Repeated candidates -/

namespace CellPopulation

theorem gridAlive_addAll_of_alive (l : List LifeCell) (s : CellPopulation) (a b : Int)
    (h : gridAlive s.current a b = true) : gridAlive (s.addAll l).current a b = true :=
  (gridAlive_addAll s l a b).2 (Or.inl h)

/-- Cells that are already alive can be dropped from a run of `AddAliveCell`. -/
theorem addAll_filter (p : LifeCell → Bool) (l : List LifeCell) (s : CellPopulation)
    (h : ∀ d ∈ l, p d = false → gridAlive s.current d.x d.y = true) :
    s.addAll (l.filter p) = s.addAll l := by
  induction l generalizing s with
  | nil => rfl
  | cons c rest ih =>
    have hrest : ∀ t : CellPopulation, (∀ a b, gridAlive s.current a b = true →
        gridAlive t.current a b = true) → t.addAll (rest.filter p) = t.addAll rest := by
      intro t ht
      exact ih t (fun d hd hp => ht _ _ (h d (List.mem_cons_of_mem _ hd) hp))
    cases hp : p c
    · rw [List.filter_cons_of_neg (by simp [hp]), addAll_cons,
        AddAliveCell_of_alive s c.x c.y (h c (List.mem_cons_self _ _) hp)]
      exact hrest s (fun _ _ h1 => h1)
    · rw [List.filter_cons_of_pos hp, addAll_cons, addAll_cons]
      exact hrest _ (fun a b h1 => (gridAlive_AddAliveCell s c.x c.y a b).2 (Or.inl h1))

theorem addAll_keepFirst (l : List LifeCell) (s : CellPopulation) :
    s.addAll (keepFirst l) = s.addAll l := by
  induction l generalizing s with
  | nil => rfl
  | cons c rest ih =>
    rw [keepFirst, addAll_cons, addAll_cons, addAll_filter, ih]
    intro d _ hd
    have hdc : d = c := by simpa using hd
    rw [hdc, gridAlive_AddAliveCell]
    exact Or.inr ⟨rfl, rfl⟩

theorem mem_keepFirst (l : List LifeCell) (c : LifeCell) : c ∈ keepFirst l ↔ c ∈ l := by
  induction l with
  | nil => rfl
  | cons d rest ih =>
    simp only [keepFirst, List.mem_cons, List.mem_filter, ih, decide_eq_true_eq]
    by_cases hcd : c = d
    · simp [hcd]
    · simp [hcd]

theorem filter_keepFirst (p : LifeCell → Bool) (l : List LifeCell) :
    (keepFirst l).filter p = keepFirst (l.filter p) := by
  induction l with
  | nil => rfl
  | cons c rest ih =>
    cases hp : p c
    · rw [List.filter_cons_of_neg (by simp [hp]), ← ih, keepFirst,
        List.filter_cons_of_neg (by simp [hp]), List.filter_filter]
      apply List.filter_congr
      intro d _
      by_cases hdc : d = c
      · simp [hdc, hp]
      · simp [hdc]
    · rw [List.filter_cons_of_pos hp, keepFirst, keepFirst, List.filter_cons_of_pos hp, ← ih,
        List.filter_filter, List.filter_filter]
      congr 1
      apply List.filter_congr
      intro d _
      exact Bool.and_comm _ _

end CellPopulation

/-! ## Concrete states -/

theorem blinker_reachable : Reachable blinker :=
  Reachable.add _ 2 0
    (Reachable.add _ 1 0
      (Reachable.add _ 0 0 Reachable.fresh (by decide) (by decide)) (by decide) (by decide))
    (by decide) (by decide)

/-! ## The claims -/

/-- C1: in every state reachable from a fresh engine by `AddAliveCell` and
`Iterate`, one call of `Iterate` makes the alive set of the current buffer the
Conway successor, on the torus of side 2^64, of the alive set before the call:
for every cell (x, y) of the plane, queued as a candidate or not, the cell is
alive afterwards iff it was alive with two or three alive neighbours or dead
with exactly three. -/
theorem Iterate_is_life_successor (s : CellPopulation) (h : Reachable s) (x y : Int)
    (hx : InRange x) (hy : InRange y) :
    gridAlive s.Iterate.current x y = lifeSuccessor (gridAlive s.current) x y := by
  have hinv := CellPopulation.candidateInv_of_reachable s h
  rw [Bool.eq_iff_iff, CellPopulation.gridAlive_Iterate,
    CellPopulation.codeRule_eq_lifeSuccessor _ _ hx hy]
  constructor
  · exact fun h1 => h1.2
  · intro hs
    refine ⟨CellPopulation.mem_cands_of_lifeSuccessor s hinv x y hx hy ?_, hs⟩
    unfold lifeSuccessor at hs
    cases hal : gridAlive s.current x y
    · right
      simp [hal] at hs
      omega
    · exact Or.inl rfl

theorem Iterate_is_life_successor_witness :
    Reachable blinker ∧ InRange 1 ∧ InRange (-1) ∧
      gridAlive blinker.Iterate.current 1 (-1)
        = lifeSuccessor (gridAlive blinker.current) 1 (-1) :=
  ⟨blinker_reachable, by decide, by decide,
    Iterate_is_life_successor blinker blinker_reachable 1 (-1) (by decide) (by decide)⟩

/-- C2: for `int64_t` arguments x and y, `GetListOfNeighbors` appends exactly
eight cells, in the fixed order (x-1,y+1), (x-1,y), (x-1,y-1), (x,y+1),
(x,y-1), (x+1,y+1), (x+1,y), (x+1,y-1), where the step on an axis wraps at
the extreme values only (`succ64`, `pred64`) and is addition modulo 2^64 in
two's complement; the eight cells are pairwise distinct, none is (x, y), and
they are exactly the cells (x+dx, y+dy) with dx, dy in {-1, 0, 1} and
(dx, dy) not (0, 0). -/
theorem GetListOfNeighbors_spec (x y : Int) (hx : InRange x) (hy : InRange y)
    (neighborCells : List LifeCell) :
    LifeCell.GetListOfNeighbors x y neighborCells
        = neighborCells ++
          [ LifeCell.mk (pred64 x) (succ64 y), LifeCell.mk (pred64 x) y,
            LifeCell.mk (pred64 x) (pred64 y),
            LifeCell.mk x (succ64 y), LifeCell.mk x (pred64 y),
            LifeCell.mk (succ64 x) (succ64 y), LifeCell.mk (succ64 x) y,
            LifeCell.mk (succ64 x) (pred64 y) ]
      ∧ (succ64 x = wrap64 (x + 1) ∧ pred64 x = wrap64 (x - 1)
          ∧ succ64 y = wrap64 (y + 1) ∧ pred64 y = wrap64 (y - 1))
      ∧ (LifeCell.GetListOfNeighbors x y []).length = 8
      ∧ (LifeCell.GetListOfNeighbors x y []).Nodup
      ∧ LifeCell.mk x y ∉ LifeCell.GetListOfNeighbors x y []
      ∧ ∀ c : LifeCell, c ∈ LifeCell.GetListOfNeighbors x y [] ↔
          ∃ dx dy : Int, (dx = -1 ∨ dx = 0 ∨ dx = 1) ∧ (dy = -1 ∨ dy = 0 ∨ dy = 1)
            ∧ ¬ (dx = 0 ∧ dy = 0) ∧ c = LifeCell.mk (wrap64 (x + dx)) (wrap64 (y + dy)) := by
  have e1 : succ64 x = wrap64 (x + 1) := by
    unfold InRange MIN_VALUE MAX_VALUE at hx
    unfold succ64 MIN_VALUE MAX_VALUE wrap64
    split <;> omega
  have e2 : pred64 x = wrap64 (x - 1) := by
    unfold InRange MIN_VALUE MAX_VALUE at hx
    unfold pred64 MIN_VALUE MAX_VALUE wrap64
    split <;> omega
  have e3 : succ64 y = wrap64 (y + 1) := by
    unfold InRange MIN_VALUE MAX_VALUE at hy
    unfold succ64 MIN_VALUE MAX_VALUE wrap64
    split <;> omega
  have e4 : pred64 y = wrap64 (y - 1) := by
    unfold InRange MIN_VALUE MAX_VALUE at hy
    unfold pred64 MIN_VALUE MAX_VALUE wrap64
    split <;> omega
  have hx0 := wrap64_of_inRange x hx
  have hy0 := wrap64_of_inRange y hy
  refine ⟨?_, ⟨e1, e2, e3, e4⟩, ?_, ?_, ?_, ?_⟩
  · rw [GetListOfNeighbors_eq_torus x y hx hy, e1, e2, e3, e4]
    simp only [torusNeighbours, neighbourOffsets, List.map, Int.add_zero, hx0, hy0,
      Int.sub_eq_add_neg]
  · rw [GetListOfNeighbors_eq_torus x y hx hy]
    rfl
  · rw [GetListOfNeighbors_eq_torus x y hx hy]
    exact torusNeighbours_nodup x y
  · rw [GetListOfNeighbors_eq_torus x y hx hy]
    exact self_not_mem_torusNeighbours x y
  · intro c
    rw [GetListOfNeighbors_eq_torus x y hx hy]
    simp only [List.nil_append, torusNeighbours, List.mem_map, Prod.exists,
      mem_neighbourOffsets]
    constructor
    · rintro ⟨dx, dy, ⟨h1, h2, h3⟩, rfl⟩
      exact ⟨dx, dy, h1, h2, h3, rfl⟩
    · rintro ⟨dx, dy, h1, h2, h3, rfl⟩
      exact ⟨dx, dy, ⟨h1, h2, h3⟩, rfl⟩

theorem GetListOfNeighbors_spec_witness :
    InRange MAX_VALUE ∧ InRange MIN_VALUE ∧
      LifeCell.GetListOfNeighbors MAX_VALUE MIN_VALUE []
        = [ LifeCell.mk 9223372036854775806 (-9223372036854775807),
            LifeCell.mk 9223372036854775806 (-9223372036854775808),
            LifeCell.mk 9223372036854775806 9223372036854775807,
            LifeCell.mk 9223372036854775807 (-9223372036854775807),
            LifeCell.mk 9223372036854775807 9223372036854775807,
            LifeCell.mk (-9223372036854775808) (-9223372036854775807),
            LifeCell.mk (-9223372036854775808) (-9223372036854775808),
            LifeCell.mk (-9223372036854775808) 9223372036854775807 ] :=
  ⟨by decide, by decide,
    (GetListOfNeighbors_spec MAX_VALUE MIN_VALUE (by decide) (by decide) []).1.trans
      (by decide)⟩

/-- C3: for every engine state, a cell (x, y) is alive in the current buffer
after `Iterate` iff it occurs in the candidate list held before the call and,
measured against the buffer that was current before the call, it was alive
with two or three alive neighbours or dead with exactly three; a candidate
that fails the rule is therefore absent.  The whole result is the same for a
state `t` that has the same current pointer, current buffer and candidate
list, whatever its other buffer holds. -/
theorem Iterate_alive_iff_candidate_rule (s t : CellPopulation) (x y : Int)
    (hx : InRange x) (hy : InRange y)
    (ht1 : t.m_pCurrentlyAliveCells = s.m_pCurrentlyAliveCells)
    (ht2 : t.current = s.current)
    (ht3 : t.m_PotentiallyChangedCells = s.m_PotentiallyChangedCells) :
    (gridAlive s.Iterate.current x y = true ↔
        LifeCell.mk x y ∈ s.m_PotentiallyChangedCells ∧
          ((gridAlive s.current x y = true ∧
              (aliveNeighbours (gridAlive s.current) x y = 2
                ∨ aliveNeighbours (gridAlive s.current) x y = 3))
            ∨ (gridAlive s.current x y = false ∧
                aliveNeighbours (gridAlive s.current) x y = 3)))
      ∧ t.Iterate = s.Iterate := by
  refine ⟨?_, CellPopulation.Iterate_congr s t ht1 ht2 ht3⟩
  rw [CellPopulation.gridAlive_Iterate, CellPopulation.codeRule_eq_lifeSuccessor _ _ hx hy]
  unfold lifeSuccessor
  cases gridAlive s.current x y <;> simp

theorem Iterate_alive_iff_candidate_rule_witness :
    InRange 1 ∧ InRange 1 ∧
      blinkerStale.m_pCurrentlyAliveCells = blinker.m_pCurrentlyAliveCells ∧
      blinkerStale.current = blinker.current ∧
      blinkerStale.m_PotentiallyChangedCells = blinker.m_PotentiallyChangedCells ∧
      blinkerStale ≠ blinker ∧ blinkerStale.Iterate = blinker.Iterate ∧
      gridAlive blinker.Iterate.current 1 1 = true :=
  ⟨by decide, by decide, by decide, by decide, by decide, by decide,
    (Iterate_alive_iff_candidate_rule blinker blinkerStale 1 1 (by decide) (by decide)
      (by decide) (by decide) (by decide)).2,
    (Iterate_alive_iff_candidate_rule blinker blinkerStale 1 1 (by decide) (by decide)
      (by decide) (by decide) (by decide)).1.2 ⟨by decide, Or.inr ⟨by decide, by decide⟩⟩⟩

/-- C4: `AddAliveCell` is idempotent: applied twice in a row it yields exactly
the state one application yields, and on a cell already alive in the current
buffer it returns the state unchanged (both buffers, both role pointers and
the candidate list). -/
theorem AddAliveCell_idempotent (s : CellPopulation) (x y : Int) :
    (s.AddAliveCell x y).AddAliveCell x y = s.AddAliveCell x y
      ∧ (gridAlive s.current x y = true → s.AddAliveCell x y = s) := by
  refine ⟨?_, CellPopulation.AddAliveCell_of_alive s x y⟩
  apply CellPopulation.AddAliveCell_of_alive
  rw [CellPopulation.gridAlive_AddAliveCell]
  exact Or.inr ⟨rfl, rfl⟩

theorem AddAliveCell_idempotent_witness :
    gridAlive blinker.current 1 0 = true ∧ blinker.AddAliveCell 1 0 = blinker
      ∧ (blinker.AddAliveCell 7 7).AddAliveCell 7 7 = blinker.AddAliveCell 7 7 :=
  ⟨by decide, (AddAliveCell_idempotent blinker 1 0).2 (by decide),
    (AddAliveCell_idempotent blinker 7 7).1⟩

/-- C5: for every engine state whose role pointers point at different
buffers and every (x, y) not alive in the current buffer, `AddAliveCell`
(a) makes the alive set of the current buffer the old one plus (x, y), with x
appended at the end of row y and every other row, and the order of the other
rows, unchanged, (b) appends exactly nine candidates, (x, y) followed by its
eight neighbours in `GetListOfNeighbors` order, after the earlier candidates,
and (c) leaves the previous buffer and both role pointers unchanged. -/
theorem AddAliveCell_of_dead_effect (s : CellPopulation) (x y : Int)
    (hdead : gridAlive s.current x y = false)
    (hptr : s.m_pPreviouslyAliveCells ≠ s.m_pCurrentlyAliveCells) :
    (∀ a b, gridAlive (s.AddAliveCell x y).current a b = true
        ↔ gridAlive s.current a b = true ∨ (a = x ∧ b = y))
      ∧ mapFind (s.AddAliveCell x y).current y = some (mapAt s.current y ++ [x])
      ∧ (∀ k, k ≠ y → mapFind (s.AddAliveCell x y).current k = mapFind s.current k)
      ∧ (s.AddAliveCell x y).current.filter (fun e => decide (e.1 ≠ y))
          = s.current.filter (fun e => decide (e.1 ≠ y))
      ∧ (s.AddAliveCell x y).m_PotentiallyChangedCells
          = s.m_PotentiallyChangedCells ++
              (LifeCell.mk x y :: LifeCell.GetListOfNeighbors x y [])
      ∧ (s.AddAliveCell x y).m_PotentiallyChangedCells.length
          = s.m_PotentiallyChangedCells.length + 9
      ∧ (s.AddAliveCell x y).previous = s.previous
      ∧ (s.AddAliveCell x y).m_pCurrentlyAliveCells = s.m_pCurrentlyAliveCells
      ∧ (s.AddAliveCell x y).m_pPreviouslyAliveCells = s.m_pPreviouslyAliveCells := by
  have hc : (s.AddAliveCell x y).m_PotentiallyChangedCells
      = s.m_PotentiallyChangedCells ++
          (LifeCell.mk x y :: LifeCell.GetListOfNeighbors x y []) := by
    rw [CellPopulation.cands_AddAliveCell, hdead]
    simp
  refine ⟨CellPopulation.gridAlive_AddAliveCell s x y, ?_, ?_, ?_, hc, ?_, ?_,
    CellPopulation.AddAliveCell_cur s x y, CellPopulation.AddAliveCell_prev s x y⟩
  · rw [CellPopulation.mapFind_current_AddAliveCell]
    simp [hdead]
  · intro k hk
    rw [CellPopulation.mapFind_current_AddAliveCell]
    simp [hk]
  · rw [CellPopulation.AddAliveCell_of_dead s x y hdead, CellPopulation.current_with_cands,
      CellPopulation.current_store_cur, filter_mapAssign, filter_mapIndex]
  · rw [hc]
    simp [LifeCell.GetListOfNeighbors]
  · unfold CellPopulation.previous
    rw [CellPopulation.AddAliveCell_prev, CellPopulation.load_AddAliveCell_ne s x y _ hptr]

theorem AddAliveCell_of_dead_effect_witness :
    gridAlive blinker.current 3 0 = false ∧
      blinker.m_pPreviouslyAliveCells ≠ blinker.m_pCurrentlyAliveCells ∧
      mapFind (blinker.AddAliveCell 3 0).current 0 = some [0, 1, 2, 3] ∧
      (blinker.AddAliveCell 3 0).m_PotentiallyChangedCells.length = 36 ∧
      (blinker.AddAliveCell 3 0).previous = [] :=
  ⟨by decide, by decide,
    (AddAliveCell_of_dead_effect blinker 3 0 (by decide) (by decide)).2.1.trans (by decide),
    (AddAliveCell_of_dead_effect blinker 3 0 (by decide) (by decide)).2.2.2.2.2.1.trans
      (by decide),
    (AddAliveCell_of_dead_effect blinker 3 0 (by decide) (by decide)).2.2.2.2.2.2.1.trans
      (by decide)⟩

/-- C6: in every state reachable from a fresh engine by `AddAliveCell` and
`Iterate`, a cell occurs in the candidate list iff it is alive in the current
buffer or is one of the eight neighbours of a cell alive in the current
buffer. -/
theorem candidates_eq_alive_and_neighbours (s : CellPopulation) (h : Reachable s)
    (c : LifeCell) :
    c ∈ s.m_PotentiallyChangedCells ↔
      (gridAlive s.current c.x c.y = true
        ∨ ∃ a b, gridAlive s.current a b = true ∧ c ∈ LifeCell.GetListOfNeighbors a b []) := by
  have hinv := CellPopulation.candidateInv_of_reachable s h
  rw [hinv.2 c]
  constructor
  · rintro (h1 | ⟨a, b, h1, h2⟩)
    · exact Or.inl h1
    · have hr := hinv.1 a b h1
      exact Or.inr ⟨a, b, h1, by
        rw [GetListOfNeighbors_eq_torus a b hr.1 hr.2]; simpa using h2⟩
  · rintro (h1 | ⟨a, b, h1, h2⟩)
    · exact Or.inl h1
    · have hr := hinv.1 a b h1
      rw [GetListOfNeighbors_eq_torus a b hr.1 hr.2] at h2
      exact Or.inr ⟨a, b, h1, by simpa using h2⟩

theorem candidates_eq_alive_and_neighbours_witness :
    Reachable blinker ∧
      (LifeCell.mk 3 1 ∈ blinker.m_PotentiallyChangedCells ↔
        (gridAlive blinker.current 3 1 = true
          ∨ ∃ a b, gridAlive blinker.current a b = true
              ∧ LifeCell.mk 3 1 ∈ LifeCell.GetListOfNeighbors a b [])) :=
  ⟨blinker_reachable, candidates_eq_alive_and_neighbours blinker blinker_reachable ⟨3, 1⟩⟩

/-- C7: in every reachable state, a cell of the plane whose liveness in the
true Life successor differs from its liveness in the current buffer (it dies
or it is born) is on the candidate list that `Iterate` evaluates. -/
theorem changed_cells_are_candidates (s : CellPopulation) (h : Reachable s) (x y : Int)
    (hx : InRange x) (hy : InRange y)
    (hchg : lifeSuccessor (gridAlive s.current) x y ≠ gridAlive s.current x y) :
    LifeCell.mk x y ∈ s.m_PotentiallyChangedCells := by
  have hinv := CellPopulation.candidateInv_of_reachable s h
  apply CellPopulation.mem_cands_of_lifeSuccessor s hinv x y hx hy
  cases hal : gridAlive s.current x y
  · right
    simp [lifeSuccessor, hal] at hchg
    omega
  · exact Or.inl rfl

theorem changed_cells_are_candidates_witness :
    Reachable blinker ∧ InRange 1 ∧ InRange 1 ∧
      lifeSuccessor (gridAlive blinker.current) 1 1 ≠ gridAlive blinker.current 1 1 ∧
      LifeCell.mk 1 1 ∈ blinker.m_PotentiallyChangedCells :=
  ⟨blinker_reachable, by decide, by decide, by decide,
    changed_cells_are_candidates blinker blinker_reachable 1 1 (by decide) (by decide)
      (by decide)⟩

/-- C8: for every engine state, after one `Iterate` the previous buffer is
exactly the buffer that was current before the call (same rows, same columns,
same order); the roles are exchanged once: the previous pointer takes the old
current pointer, the current pointer moves to the other buffer, which is the
old previous one when the two pointers differed, and whatever that buffer
held before the call is cleared (overwriting it with any `g` beforehand gives
the same result); after two calls the current pointer is back at the buffer
it started from. -/
theorem Iterate_swaps_roles (s : CellPopulation) (g : LifeGrid_t) :
    s.Iterate.previous = s.current
      ∧ s.Iterate.m_pPreviouslyAliveCells = s.m_pCurrentlyAliveCells
      ∧ s.Iterate.m_pCurrentlyAliveCells ≠ s.m_pCurrentlyAliveCells
      ∧ (s.m_pPreviouslyAliveCells ≠ s.m_pCurrentlyAliveCells →
          s.Iterate.m_pCurrentlyAliveCells = s.m_pPreviouslyAliveCells)
      ∧ (s.store s.Iterate.m_pCurrentlyAliveCells g).Iterate = s.Iterate
      ∧ s.Iterate.Iterate.m_pCurrentlyAliveCells = s.m_pCurrentlyAliveCells := by
  have hne : s.Iterate.m_pCurrentlyAliveCells ≠ s.m_pCurrentlyAliveCells := by
    rw [CellPopulation.Iterate_cur]
    exact CellPopulation.SwapAliveCells_cur_ne s
  refine ⟨CellPopulation.Iterate_previous s, CellPopulation.Iterate_prev s, hne, ?_, ?_, ?_⟩
  · intro hp
    exact CellPopulation.bufferId_eq_of_ne _ _ _ hne hp
  · apply CellPopulation.Iterate_congr
    · exact CellPopulation.store_cur s _ g
    · unfold CellPopulation.current
      rw [CellPopulation.store_cur]
      exact CellPopulation.load_store_ne s _ _ g (Ne.symm hne)
    · exact CellPopulation.store_cands s _ g
  · have h2 : s.Iterate.Iterate.m_pCurrentlyAliveCells ≠ s.Iterate.m_pCurrentlyAliveCells := by
      rw [CellPopulation.Iterate_cur s.Iterate]
      exact CellPopulation.SwapAliveCells_cur_ne s.Iterate
    exact CellPopulation.bufferId_eq_of_ne _ _ _ h2 (Ne.symm hne)

theorem Iterate_swaps_roles_witness :
    blinker.m_pPreviouslyAliveCells ≠ blinker.m_pCurrentlyAliveCells ∧
      blinker.Iterate.m_pCurrentlyAliveCells = BufferId.B ∧
      blinker.Iterate.previous = [(0, [0, 1, 2])] :=
  ⟨by decide,
    ((Iterate_swaps_roles blinker []).2.2.2.1 (by decide)).trans (by decide),
    (Iterate_swaps_roles blinker []).1.trans (by decide)⟩

/-- C9: in every state reachable from a fresh engine by `AddAliveCell` and
`Iterate`, no column occurs twice in the column list of any row, in the
current buffer and in the previous buffer. -/
theorem rows_have_no_duplicates (s : CellPopulation) (h : Reachable s) (y : Int)
    (row : List Int) :
    ((y, row) ∈ s.current → row.Nodup) ∧ ((y, row) ∈ s.previous → row.Nodup) :=
  ⟨fun h1 => CellPopulation.rowsNodup_of_reachable s h _ _ h1,
    fun h1 => CellPopulation.rowsNodup_of_reachable s h _ _ h1⟩

theorem rows_have_no_duplicates_witness :
    Reachable blinker.Iterate.Iterate ∧
      ((0, [0, 1, 2]) ∈ blinker.Iterate.Iterate.current ∧ [(0 : Int), 1, 2].Nodup) ∧
      ((1, [1]) ∈ blinker.Iterate.Iterate.previous ∧ [(1 : Int)].Nodup) :=
  ⟨Reachable.iterate _ (Reachable.iterate _ blinker_reachable),
    ⟨by decide,
      (rows_have_no_duplicates blinker.Iterate.Iterate
        (Reachable.iterate _ (Reachable.iterate _ blinker_reachable)) 0 [0, 1, 2]).1
        (by decide)⟩,
    ⟨by decide,
      (rows_have_no_duplicates blinker.Iterate.Iterate
        (Reachable.iterate _ (Reachable.iterate _ blinker_reachable)) 1 [1]).2
        (by decide)⟩⟩

/-- C10: a population whose current buffer has no alive cell (a fresh engine
in particular) has no alive cell in its current buffer after any number n of
`Iterate` calls, and from the first call on its current buffer has no row and
its candidate list is empty. -/
theorem stable_emptiness (s : CellPopulation)
    (hempty : ∀ x y, gridAlive s.current x y = false) (n : Nat) :
    (∀ x y, gridAlive (CellPopulation.iterateTimes n s).current x y = false)
      ∧ (0 < n → (CellPopulation.iterateTimes n s).current = []
          ∧ (CellPopulation.iterateTimes n s).m_PotentiallyChangedCells = []) := by
  induction n with
  | zero => exact ⟨hempty, fun h => absurd h (Nat.lt_irrefl 0)⟩
  | succ n ih =>
    have h1 : (CellPopulation.iterateTimes (n + 1) s).current = [] := by
      rw [CellPopulation.iterateTimes_succ, CellPopulation.Iterate_of_empty _ ih.1]
      exact CellPopulation.iterateBase_current _
    have h2 : (CellPopulation.iterateTimes (n + 1) s).m_PotentiallyChangedCells = [] := by
      rw [CellPopulation.iterateTimes_succ, CellPopulation.Iterate_of_empty _ ih.1]
      rfl
    refine ⟨?_, fun _ => ⟨h1, h2⟩⟩
    intro x y
    rw [h1]
    rfl

theorem stable_emptiness_witness :
    (∀ x y, gridAlive deadWithCandidates.current x y = false) ∧
      deadWithCandidates.m_PotentiallyChangedCells ≠ [] ∧
      (CellPopulation.iterateTimes 3 deadWithCandidates).current = [] ∧
      (CellPopulation.iterateTimes 3 deadWithCandidates).m_PotentiallyChangedCells = [] ∧
      (CellPopulation.iterateTimes 5 CellPopulation.new).current = [] :=
  ⟨fun x y => by
      simp only [deadWithCandidates, CellPopulation.current, CellPopulation.load, gridAlive,
        mapFind]
      split <;> simp_all,
    by decide,
    ((stable_emptiness deadWithCandidates (fun x y => by
      simp only [deadWithCandidates, CellPopulation.current, CellPopulation.load, gridAlive,
        mapFind]
      split <;> simp_all) 3).2 (by decide)).1,
    ((stable_emptiness deadWithCandidates (fun x y => by
      simp only [deadWithCandidates, CellPopulation.current, CellPopulation.load, gridAlive,
        mapFind]
      split <;> simp_all) 3).2 (by decide)).2,
    ((stable_emptiness CellPopulation.new (fun _ _ => rfl) 5).2 (by decide)).1⟩

/-- C11: a fresh engine seeded by `AddAliveCell` with the 2x2 block (0,0),
(1,0), (0,1), (1,1) has, after any number n of `Iterate` calls, exactly the
cells of that block alive in its current buffer. -/
theorem block_is_still_life (n : Nat) (x y : Int) :
    gridAlive (CellPopulation.iterateTimes n blockEngine).current x y = true
      ↔ (x = 0 ∨ x = 1) ∧ (y = 0 ∨ y = 1) := by
  rw [(block_invariant n).2 x y]
  simp [blockAlive]

/-- C12: a fresh engine seeded with the horizontal blinker (0,0), (1,0), (2,0)
has exactly the cells (1,-1), (1,0), (1,1) alive after one `Iterate` and
exactly the cells (0,0), (1,0), (2,0) alive again after a second one. -/
theorem blinker_oscillates (x y : Int) :
    (gridAlive blinker.Iterate.current x y = true ↔ x = 1 ∧ (y = -1 ∨ y = 0 ∨ y = 1))
      ∧ (gridAlive blinker.Iterate.Iterate.current x y = true
          ↔ (x = 0 ∨ x = 1 ∨ x = 2) ∧ y = 0) := by
  have e1 : blinker.Iterate.current = [(-1, [1]), (0, [1]), (1, [1])] := by decide
  have e2 : blinker.Iterate.Iterate.current = [(0, [0, 1, 2])] := by decide
  rw [e1, e2]
  simp only [gridAlive, mapFind]
  constructor
  · by_cases h0 : (-1 : Int) = y
    · subst h0; simp
    · by_cases h1 : (0 : Int) = y
      · subst h1; simp
      · by_cases h2 : (1 : Int) = y
        · subst h2; simp
        · simp only [h0, h1, h2, if_false]
          constructor
          · intro h
            exact Bool.noConfusion h
          · rintro ⟨-, h3 | h3 | h3⟩
            · exact absurd h3.symm h0
            · exact absurd h3.symm h1
            · exact absurd h3.symm h2
  · by_cases h0 : (0 : Int) = y
    · subst h0; simp
    · simp only [h0, if_false]
      constructor
      · intro h
        exact Bool.noConfusion h
      · rintro ⟨-, h3⟩
        exact absurd h3.symm h0

/-- C16: `Iterate` tolerates repeated candidates.  For two states with the
same current buffer whose candidate lists hold the same set of cells, the
cells alive in the current buffer after `Iterate` are the same; and when the
second candidate list is the first with later repeats removed, the current
buffer (rows and their order), the previous buffer and the new candidate list
after `Iterate` are the same, and so is the whole state when the two states
have the same buffer in the current role. -/
theorem Iterate_tolerates_duplicates (s t : CellPopulation) (x y : Int)
    (hcur : t.current = s.current) :
    ((∀ c, c ∈ t.m_PotentiallyChangedCells ↔ c ∈ s.m_PotentiallyChangedCells) →
        gridAlive t.Iterate.current x y = gridAlive s.Iterate.current x y)
      ∧ (t.m_PotentiallyChangedCells = keepFirst s.m_PotentiallyChangedCells →
          t.Iterate.current = s.Iterate.current
            ∧ t.Iterate.previous = s.Iterate.previous
            ∧ t.Iterate.m_PotentiallyChangedCells = s.Iterate.m_PotentiallyChangedCells
            ∧ (t.m_pCurrentlyAliveCells = s.m_pCurrentlyAliveCells →
                t.Iterate = s.Iterate)) := by
  constructor
  · intro hset
    rw [Bool.eq_iff_iff, CellPopulation.gridAlive_Iterate, CellPopulation.gridAlive_Iterate,
      hcur, hset]
  · intro hk
    have hl : (s.iterateBase.addAll (t.m_PotentiallyChangedCells.filter (codeRule t.current)))
        = s.Iterate := by
      rw [CellPopulation.Iterate_eq, hcur, hk, CellPopulation.filter_keepFirst,
        CellPopulation.addAll_keepFirst]
    refine ⟨?_, ?_, ?_, ?_⟩
    · rw [← hl, CellPopulation.Iterate_eq, CellPopulation.current_addAll,
        CellPopulation.current_addAll, CellPopulation.iterateBase_current,
        CellPopulation.iterateBase_current]
    · rw [CellPopulation.Iterate_previous, CellPopulation.Iterate_previous, hcur]
    · rw [← hl, CellPopulation.Iterate_eq]
      apply CellPopulation.cands_addAll_congr
      · rw [CellPopulation.iterateBase_current, CellPopulation.iterateBase_current]
      · rfl
    · intro hptr
      rw [← hl, CellPopulation.Iterate_eq, CellPopulation.iterateBase_congr s t hptr hcur]

theorem Iterate_tolerates_duplicates_witness :
    blinkerDeduped.current = blinker.current ∧
      (∀ c, c ∈ blinkerDeduped.m_PotentiallyChangedCells ↔
        c ∈ blinker.m_PotentiallyChangedCells) ∧
      blinkerDeduped.m_pCurrentlyAliveCells = blinker.m_pCurrentlyAliveCells ∧
      blinkerDeduped.m_PotentiallyChangedCells = keepFirst blinker.m_PotentiallyChangedCells ∧
      blinker.m_PotentiallyChangedCells.length = 27 ∧
      blinkerDeduped.m_PotentiallyChangedCells.length = 15 ∧
      blinkerDeduped.Iterate = blinker.Iterate :=
  ⟨by decide, fun c => CellPopulation.mem_keepFirst _ c, by decide, by decide, by decide,
    by decide,
    ((Iterate_tolerates_duplicates blinker blinkerDeduped 0 0 (by decide)).2
      (by decide)).2.2.2 (by decide)⟩

/-- C18: adjacency is symmetric on the torus: for `int64_t` cells p and q, q
is listed by `GetListOfNeighbors` for p iff p is listed for q, the extreme
values included; the wrapped successor and predecessor on an axis are inverse
to each other. -/
theorem GetListOfNeighbors_symmetric (px py qx qy : Int) (hpx : InRange px)
    (hpy : InRange py) (hqx : InRange qx) (hqy : InRange qy) :
    (LifeCell.mk qx qy ∈ LifeCell.GetListOfNeighbors px py []
        ↔ LifeCell.mk px py ∈ LifeCell.GetListOfNeighbors qx qy [])
      ∧ pred64 (succ64 px) = px ∧ succ64 (pred64 px) = px := by
  refine ⟨?_, ?_, ?_⟩
  · rw [GetListOfNeighbors_eq_torus px py hpx hpy, GetListOfNeighbors_eq_torus qx qy hqx hqy,
      List.nil_append, List.nil_append]
    exact ⟨torusNeighbours_symm px py qx qy hpx hpy, torusNeighbours_symm qx qy px py hqx hqy⟩
  · unfold InRange MIN_VALUE MAX_VALUE at hpx
    unfold pred64 succ64 MIN_VALUE MAX_VALUE
    split <;> split <;> omega
  · unfold InRange MIN_VALUE MAX_VALUE at hpx
    unfold pred64 succ64 MIN_VALUE MAX_VALUE
    split <;> split <;> omega

theorem GetListOfNeighbors_symmetric_witness :
    InRange MAX_VALUE ∧ InRange MIN_VALUE ∧
      LifeCell.mk MIN_VALUE MAX_VALUE ∈ LifeCell.GetListOfNeighbors MAX_VALUE MIN_VALUE [] ∧
      LifeCell.mk MAX_VALUE MIN_VALUE ∈ LifeCell.GetListOfNeighbors MIN_VALUE MAX_VALUE [] :=
  ⟨by decide, by decide, by decide,
    (GetListOfNeighbors_symmetric MAX_VALUE MIN_VALUE MIN_VALUE MAX_VALUE (by decide)
      (by decide) (by decide) (by decide)).1.1 (by decide)⟩

/-- C20: in every state reachable from a fresh engine by `AddAliveCell` and
`Iterate`, every row present in the current buffer and in the previous buffer
has a non-empty column list, so a row key is present exactly when the row has
an alive cell. -/
theorem no_empty_rows (s : CellPopulation) (h : Reachable s) (y : Int) (row : List Int) :
    ((y, row) ∈ s.current → row ≠ [])
      ∧ ((y, row) ∈ s.previous → row ≠ [])
      ∧ (mapFind s.current y ≠ none ↔ ∃ x, gridAlive s.current x y = true)
      ∧ (mapFind s.previous y ≠ none ↔ ∃ x, gridAlive s.previous x y = true) :=
  ⟨fun h1 => (CellPopulation.gridWF_of_reachable s h _).2.2 _ h1,
    fun h1 => (CellPopulation.gridWF_of_reachable s h _).2.2 _ h1,
    key_present_iff_alive _ (CellPopulation.gridWF_of_reachable s h _).2.2 y,
    key_present_iff_alive _ (CellPopulation.gridWF_of_reachable s h _).2.2 y⟩

theorem no_empty_rows_witness :
    Reachable blinker.Iterate ∧
      ((-1, [1]) ∈ blinker.Iterate.current ∧ [(1 : Int)] ≠ []) ∧
      (mapFind blinker.Iterate.previous 0 ≠ none
        ↔ ∃ x, gridAlive blinker.Iterate.previous x 0 = true) :=
  ⟨Reachable.iterate _ blinker_reachable,
    ⟨by decide,
      (no_empty_rows blinker.Iterate (Reachable.iterate _ blinker_reachable) (-1) [1]).1
        (by decide)⟩,
    (no_empty_rows blinker.Iterate (Reachable.iterate _ blinker_reachable) 0 []).2.2.2⟩

/-- C19: in every state reachable from a fresh engine by `AddAliveCell` and
`Iterate`, the candidate list is exactly 9 times as long as the number of
cells alive in the current buffer, where the stored cells list every alive
cell once; `Iterate` therefore evaluates the rule 9 times per alive cell and
leaves at most 9 times as many cells alive. -/
theorem candidate_count_is_nine_per_cell (s : CellPopulation) (h : Reachable s) (x y : Int) :
    s.m_PotentiallyChangedCells.length = 9 * (aliveCells s.current).length
      ∧ (aliveCells s.current).Nodup
      ∧ (LifeCell.mk x y ∈ aliveCells s.current ↔ gridAlive s.current x y = true)
      ∧ (aliveCells s.Iterate.current).length ≤ 9 * (aliveCells s.current).length := by
  have hwf := CellPopulation.gridWF_of_reachable s h s.m_pCurrentlyAliveCells
  have hc := CellPopulation.countInv_of_reachable s h
  refine ⟨hc, nodup_aliveCells _ hwf.1 hwf.2.1, mem_aliveCells_iff_alive _ hwf.1 x y, ?_⟩
  rw [← hc]
  exact CellPopulation.length_aliveCells_Iterate_le s

theorem candidate_count_is_nine_per_cell_witness :
    Reachable blinker ∧ blinker.m_PotentiallyChangedCells.length = 27 ∧
      (aliveCells blinker.current).length = 3 ∧
      (aliveCells blinker.Iterate.current).length ≤ 9 * 3 :=
  ⟨blinker_reachable,
    (candidate_count_is_nine_per_cell blinker blinker_reachable 0 0).1.trans (by decide),
    by decide,
    (candidate_count_is_nine_per_cell blinker blinker_reachable 0 0).2.2.2⟩

/-- C13: in every reachable state, `PrintAllCurrentlyAliveCells` writes its
header, then the text of each visited pair, then a line feed; the visited
pairs run through the rows in ascending y and each row in stored order, list
every alive cell of the current buffer exactly once and nothing else, and
`AddAliveCell` applied to them in order on a fresh engine gives a current
buffer with the same rows and the same column order. -/
theorem listing_round_trip (s : CellPopulation) (h : Reachable s) (x y : Int) :
    s.PrintAllCurrentlyAliveCells true
        = [CellPopulation.clearTheScreenText, "#Life 1.06", "\n"]
            ++ s.printedCells.flatMap (fun c => [toString c.x, " ", toString c.y, "\n"])
            ++ ["\n"]
      ∧ s.printedCells = aliveCells s.current
      ∧ (s.printedCells.map (fun c => c.y)).Pairwise (fun a b => a ≤ b)
      ∧ s.printedCells.Nodup
      ∧ (LifeCell.mk x y ∈ s.printedCells ↔ gridAlive s.current x y = true)
      ∧ (CellPopulation.new.addAll s.printedCells).current = s.current := by
  have hwf := CellPopulation.gridWF_of_reachable s h s.m_pCurrentlyAliveCells
  have hp := CellPopulation.printedCells_eq_aliveCells s hwf.1
  refine ⟨?_, hp, ?_, ?_, ?_, ?_⟩
  · rw [CellPopulation.PrintAllCurrentlyAliveCells_eq]
    have hc : cellText true = fun c => [toString c.x, " ", toString c.y, "\n"] := by
      funext c
      rfl
    simp [hc]
  · rw [hp]
    exact keys_ascending_aliveCells _ hwf.1
  · rw [hp]
    exact nodup_aliveCells _ hwf.1 hwf.2.1
  · rw [hp]
    exact mem_aliveCells_iff_alive _ hwf.1 x y
  · rw [hp, CellPopulation.current_addAll]
    have h0 : CellPopulation.new.current = [] := rfl
    rw [h0, foldl_gridAdd_aliveCells s.current [] hwf (fun e1 he1 => by simp at he1)]
    rfl

theorem listing_round_trip_witness :
    Reachable blinker.Iterate ∧
      blinker.Iterate.printedCells = [LifeCell.mk 1 (-1), LifeCell.mk 1 0, LifeCell.mk 1 1] ∧
      (CellPopulation.new.addAll blinker.Iterate.printedCells).current
        = [(-1, [1]), (0, [1]), (1, [1])] :=
  ⟨Reachable.iterate _ blinker_reachable, by decide,
    (listing_round_trip blinker.Iterate (Reachable.iterate _ blinker_reachable) 0
      0).2.2.2.2.2.trans (by decide)⟩

/-- C14 (the code departs from the claim): `AddAliveCellFromString` accepts
lines whose tokens are not integers, because `std::stoll` reads the leading
digits and ignores what follows.  The lines "1x 2" and "1.5 2" are both
accepted and add the cell (1, 2).  The other cases of the claim go as it
says: "12" (no space), "1  2" (two spaces), "x 2" (no digits) and
"9223372036854775808 0" (out of range) are rejected with the population
unchanged, and "-5 7" is accepted and adds (-5, 7). -/
theorem AddAliveCellFromString_accepts_trailing_garbage :
    AddAliveCellFromString CellPopulation.new ['1', 'x', ' ', '2']
        = (true, CellPopulation.new.AddAliveCell 1 2)
      ∧ AddAliveCellFromString CellPopulation.new ['1', '.', '5', ' ', '2']
        = (true, CellPopulation.new.AddAliveCell 1 2)
      ∧ AddAliveCellFromString CellPopulation.new ['1', '2'] = (false, CellPopulation.new)
      ∧ AddAliveCellFromString CellPopulation.new ['1', ' ', ' ', '2']
        = (false, CellPopulation.new)
      ∧ AddAliveCellFromString CellPopulation.new ['x', ' ', '2']
        = (false, CellPopulation.new)
      ∧ AddAliveCellFromString CellPopulation.new
          ['9', '2', '2', '3', '3', '7', '2', '0', '3', '6', '8', '5', '4', '7', '7', '5',
            '8', '0', '8', ' ', '0']
        = (false, CellPopulation.new)
      ∧ AddAliveCellFromString CellPopulation.new ['-', '5', ' ', '7']
        = (true, CellPopulation.new.AddAliveCell (-5) 7) := by
  decide

/-- C17: when the lines before line k are all accepted by
`AddAliveCellFromString`, with coordinates `cells`, then (1) if line k is not
empty and is rejected, `ProcessStartState` returns false with exactly the
state that `AddAliveCell` on `cells`, in order, produces: the rejected line
changes nothing and no later line is read; (2) if line k is empty it returns
true with that state; (3) if the input ends there it returns true with that
state. -/
theorem ProcessStartState_spec (s : CellPopulation) (pre post : List (List Char))
    (bad : List Char) (cells : List LifeCell)
    (hpre : pre.map parseSeedLine = cells.map (fun c => some (c.x, c.y))) :
    (bad ≠ [] → (AddAliveCellFromString (s.addAll cells) bad).1 = false →
        ProcessStartState s (pre ++ bad :: post) = (false, s.addAll cells)
          ∧ (AddAliveCellFromString (s.addAll cells) bad).2 = s.addAll cells)
      ∧ ProcessStartState s (pre ++ [] :: post) = (true, s.addAll cells)
      ∧ ProcessStartState s pre = (true, s.addAll cells) := by
  refine ⟨?_, ?_, ?_⟩
  · intro hne hrej
    have h2 : (AddAliveCellFromString (s.addAll cells) bad).2 = s.addAll cells := by
      unfold AddAliveCellFromString at hrej ⊢
      cases hp : parseSeedLine bad with
      | none => rfl
      | some c => rw [hp] at hrej; exact Bool.noConfusion hrej
    refine ⟨?_, h2⟩
    rw [ProcessStartState_accepted cells pre (bad :: post) s hpre]
    have hb : bad.isEmpty = false := by
      cases bad with
      | nil => exact absurd rfl hne
      | cons a as => rfl
    simp only [ProcessStartState, hb, hrej, h2]
    rfl
  · rw [ProcessStartState_accepted cells pre ([] :: post) s hpre]
    rfl
  · have h := ProcessStartState_accepted cells pre [] s hpre
    rw [List.append_nil] at h
    rw [h]
    rfl

theorem ProcessStartState_spec_witness :
    [['0', ' ', '0'], ['1', ' ', '0']].map parseSeedLine
        = [LifeCell.mk 0 0, LifeCell.mk 1 0].map (fun c => some (c.x, c.y)) ∧
      (AddAliveCellFromString
        (CellPopulation.new.addAll [LifeCell.mk 0 0, LifeCell.mk 1 0]) ['x']).1 = false ∧
      ProcessStartState CellPopulation.new
          ([['0', ' ', '0'], ['1', ' ', '0']] ++ ['x'] :: [['2', ' ', '0']])
        = (false, CellPopulation.new.addAll [LifeCell.mk 0 0, LifeCell.mk 1 0]) :=
  ⟨by decide, by decide,
    ((ProcessStartState_spec CellPopulation.new [['0', ' ', '0'], ['1', ' ', '0']]
      [['2', ' ', '0']] ['x'] [LifeCell.mk 0 0, LifeCell.mk 1 0] (by decide)).1
      (by decide) (by decide)).1⟩

set_option maxRecDepth 100000 in
/-- C15 (the code departs from the claim): `DrawNonEmptyRow` does not test
the columns against the window.  With the single alive cell (-30, 5), or the
single alive cell (30, 5), no alive cell lies in the window of half-width 25,
yet `DrawAllCurrentlyAliveCells` writes one mark; for (30, 5) the row is
longer than the row of a cell inside the window. -/
theorem DrawAllCurrentlyAliveCells_marks_outside_window :
    ((aliveCells (CellPopulation.new.AddAliveCell (-30) 5).current).filter
        inDrawWindow).length = 0
      ∧ starCount (CellPopulation.new.AddAliveCell (-30) 5).DrawAllCurrentlyAliveCells = 1
      ∧ ((aliveCells (CellPopulation.new.AddAliveCell 30 5).current).filter
          inDrawWindow).length = 0
      ∧ starCount (CellPopulation.new.AddAliveCell 30 5).DrawAllCurrentlyAliveCells = 1
      ∧ ((CellPopulation.new.AddAliveCell 30 5).DrawNonEmptyRow 5).length
          > ((CellPopulation.new.AddAliveCell 25 5).DrawNonEmptyRow 5).length := by
  decide

end GameOfLife
